import Mathlib

/-!
Verification development for the file_my_photos backend core
(scanner, duplicate detector, organizer, revert engine).

The JavaScript services are shallowly embedded:
* the SQLite catalog is a record of lists (one row per entry, list order
  modelling row order for unordered queries),
* the filesystem is an association list from paths to file contents
  (directories are implicit: mkdir / empty-directory cleanup do not change
  the file map),
* SHA-256 is an abstract parameter `hashFn : String -> String` over contents,
* async I/O is sequentialised (the services run one file at a time).
-/

namespace FMP

/-! ## Filesystem model -/

/-- A filesystem is a finite map from file paths to file contents,
represented as an association list. -/
abbrev FS := List (String × String)

/-- Content at a path (first matching entry), modelling a successful read. -/
def fsGet (fs : FS) (p : String) : Option String :=
  match fs.find? (fun e => e.1 == p) with
  | some e => some e.2
  | none => none

/-- Models a successful fs.access / fileExists check. -/
def fsExists (fs : FS) (p : String) : Bool :=
  (fsGet fs p).isSome

/-- Remove a path from the filesystem. -/
def fsErase (fs : FS) (p : String) : FS :=
  fs.filter (fun e => e.1 != p)

/-- Write content at a path (overwriting). -/
def fsSet (fs : FS) (p : String) (c : String) : FS :=
  (p, c) :: fsErase fs p

/-- Models fs.rename src dst: moves the content at src to dst
(overwriting dst, as POSIX rename does); no-op if src is absent. -/
def fsRename (fs : FS) (src dst : String) : FS :=
  match fsGet fs src with
  | none => fs
  | some c => fsSet (fsErase fs src) dst c

/-! ## Node path helpers (models of path.dirname / extname / basename / join
for the normalized slash-separated paths this system produces) -/

/-- Split a character list at the last occurrence of sep:
returns (part before, part after), neither containing that occurrence. -/
def splitLast (sep : Char) (l : List Char) : Option (List Char × List Char) :=
  match l.reverse.span (fun c => c != sep) with
  | (_, []) => none
  | (aft, _ :: bef) => some (bef.reverse, aft.reverse)

/-- Models path.dirname. -/
def pathDirname (p : String) : String :=
  match splitLast '/' p.data with
  | none => "."
  | some ([], _) => "/"
  | some (d, _) => String.mk d

/-- Models path.basename (no extension stripping). -/
def pathBasename (p : String) : String :=
  match splitLast '/' p.data with
  | none => p
  | some (_, b) => String.mk b

/-- Models path.extname: extension of the basename from its last dot,
empty for dotfiles and extensionless names. -/
def pathExtname (p : String) : String :=
  match splitLast '.' (pathBasename p).data with
  | none => ""
  | some ([], _) => ""
  | some (_, post) => String.mk ('.' :: post)

/-- Models path.basename(p, ext): the basename with a trailing ext removed
when the basename properly ends with it. -/
def pathBasenameStrip (p ext : String) : String :=
  let b := pathBasename p
  if ext ≠ "" ∧ b ≠ ext ∧ ext.data.isSuffixOf b.data then
    String.mk (b.data.take (b.data.length - ext.data.length))
  else b

/-- Models path.join(dir, name) for a nonempty dir. -/
def pathJoin (d n : String) : String := d ++ "/" ++ n

/-- Models the JavaScript String.prototype.substring(0, n). -/
def strTake (s : String) (n : Nat) : String := String.mk (s.data.take n)

/-! ## JavaScript value helpers -/

/-- Truthiness of an optional string column (null and the empty string are
falsy in JavaScript). -/
def optTruthy : Option String → Bool
  | none => false
  | some s => s != ""

/-- Models the JavaScript a || b for an optional string a (null or empty
falls through to b). -/
def jsOr (a : Option String) (b : String) : String :=
  match a with
  | some s => if s = "" then b else s
  | none => b

/-! ## Date resolution (dateResolver.js)

JavaScript Date values are modelled two ways, matching their two uses:
* resolveDate / isValidDate compare instants, modelled as milliseconds
  since the Unix epoch (an invalid Date is a separate constructor);
* extractDateComponents / generateDestinationPath read calendar
  components of stored ISO strings, modelled by parsing the leading
  YYYY-MM-DD of the string.
-/

/-- A JavaScript Date value: either an instant (ms since epoch) or the
Invalid Date produced by a failed parse. -/
inductive JSDate where
  | invalid : JSDate
  | valid : Int → JSDate
deriving DecidableEq, Repr

/-- Milliseconds in a day, the model of maxDate.setDate(getDate() + 1). -/
def dayMs : Int := 86400000

/-- Models isValidDate: a real instant no earlier than the epoch and no
later than now plus one day. -/
def isValidDate (now : Int) : JSDate → Bool
  | JSDate.invalid => false
  | JSDate.valid t => decide (0 ≤ t) && decide (t ≤ now + dayMs)

/-- Input of resolveDate: the candidate date fields of the metadata object.
A field is none when absent (falsy), some d when present and evaluating
(after new Date(...)) to the JavaScript Date d. -/
structure DateMeta where
  exifDate : Option JSDate
  createdAt : Option JSDate
  modifiedAt : Option JSDate
deriving DecidableEq, Repr

/-- Priority 3 and 4 of resolveDate: filesystem modified time, else the
current time tagged discovered. -/
def resolveDateModified (now : Int) (m : DateMeta) : Int × String :=
  match m.modifiedAt with
  | some d =>
    match d with
    | JSDate.valid t =>
      if isValidDate now (JSDate.valid t) then (t, "modified")
      else (now, "discovered")
    | JSDate.invalid => (now, "discovered")
  | none => (now, "discovered")

/-- Priority 2 of resolveDate: filesystem creation time, else the later
priorities. -/
def resolveDateCreated (now : Int) (m : DateMeta) : Int × String :=
  match m.createdAt with
  | some d =>
    match d with
    | JSDate.valid t =>
      if isValidDate now (JSDate.valid t) then (t, "created")
      else resolveDateModified now m
    | JSDate.invalid => resolveDateModified now m
  | none => resolveDateModified now m

/-- Models resolveDate: strict priority chain exif, created, modified,
discovered; first present-and-valid candidate wins, else the current time.
The ISO serialization of the chosen instant is elided (the instant itself
is returned). -/
def resolveDate (now : Int) (m : DateMeta) : Int × String :=
  match m.exifDate with
  | some d =>
    match d with
    | JSDate.valid t =>
      if isValidDate now (JSDate.valid t) then (t, "exif")
      else resolveDateCreated now m
    | JSDate.invalid => resolveDateCreated now m
  | none => resolveDateCreated now m

/-- The first candidate of an optional date field that is present and
valid (helper used to state the priority-chain theorem). -/
def validOf (now : Int) : Option JSDate → Option Int
  | some (JSDate.valid t) => if isValidDate now (JSDate.valid t) then some t else none
  | _ => none

/-! ### Calendar components for destination paths -/

/-- A calendar date (year, month, day). -/
structure YMD where
  year : Nat
  month : Nat
  day : Nat
deriving DecidableEq, Repr

/-- Parse the leading YYYY-MM-DD of an ISO date-time string; out-of-range
components are rejected as JavaScript's ISO parser rejects them.
(The time-of-day tail is not inspected: no claim depends on it.) -/
def jsParseYMD (s : String) : Option YMD :=
  match s.data with
  | y1 :: y2 :: y3 :: y4 :: '-' :: m1 :: m2 :: '-' :: d1 :: d2 :: _ =>
    if (y1.isDigit && y2.isDigit && y3.isDigit && y4.isDigit &&
        m1.isDigit && m2.isDigit && d1.isDigit && d2.isDigit) then
      let y := ((y1.toNat - 48) * 1000 + (y2.toNat - 48) * 100 +
                (y3.toNat - 48) * 10 + (y4.toNat - 48))
      let m := (m1.toNat - 48) * 10 + (m2.toNat - 48)
      let d := (d1.toNat - 48) * 10 + (d2.toNat - 48)
      if 1 ≤ m && m ≤ 12 && 1 ≤ d && d ≤ 31 then some ⟨y, m, d⟩ else none
    else none
  | _ => none

/-- Lexicographic order on calendar dates. -/
def ymdLe (a b : YMD) : Bool :=
  a.year < b.year || (a.year == b.year &&
    (a.month < b.month || (a.month == b.month && a.day ≤ b.day)))

/-- Models isValidDate for a stored date string against the current
calendar date: epoch lower bound and a now-plus-one-day upper bound
(day rollover at month end elided; no claim depends on it). -/
def isValidDateStr (today : YMD) (s : String) : Bool :=
  match jsParseYMD s with
  | none => false
  | some d => ymdLe ⟨1970, 1, 1⟩ d && ymdLe d ⟨today.year, today.month, today.day + 1⟩

/-- Models String(n).padStart(2, '0'). -/
def pad2 (n : Nat) : String :=
  if n < 10 then "0" ++ Nat.repr n else Nat.repr n

/-- Models extractDateComponents: components of the parsed date, falling
back to the current date's components on an invalid input. -/
def extractDateComponents (today : YMD) (dateStr : String) : String × String × String :=
  match jsParseYMD dateStr with
  | some d =>
    if isValidDateStr today dateStr then
      (Nat.repr d.year, pad2 d.month, pad2 d.day)
    else (Nat.repr today.year, pad2 today.month, pad2 today.day)
  | none => (Nat.repr today.year, pad2 today.month, pad2 today.day)

/-- Models generateDestinationPath: base/year/month/day/filename. -/
def generateDestinationPath (today : YMD) (destinationBase dateStr filename : String) : String :=
  let c := extractDateComponents today dateStr
  destinationBase ++ "/" ++ c.1 ++ "/" ++ c.2.1 ++ "/" ++ c.2.2 ++ "/" ++ filename

/-! ## Catalog data model (database/index.js, migrations.js)

One row per structure instance. hash_head embeds the hash_partial column
(the prefix fingerprint); claims never inspect it, only carry it. -/

/-- A row of the files table. -/
structure FileRecord where
  id : Nat
  original_path : String
  current_path : Option String
  filename : String
  extension : String
  size : Nat
  hash_sha256 : Option String
  hash_head : Option String
  mime_type : Option String
  exif_date : Option String
  resolved_date : String
  date_source : String
  status : String
  duplicate_of : Option Nat
  metadata_json : String
  created_timestamp : Nat
deriving DecidableEq, Repr

/-- A row of the operations table (the operation ledger). -/
structure Operation where
  id : Nat
  batch_id : String
  file_id : Nat
  operation_type : String
  source_path : String
  destination_path : Option String
  hash_used : Option String
  reason : String
  status : String
  created_at : Nat
deriving DecidableEq, Repr

/-- A row of the errors table. -/
structure ErrRecord where
  file_id : Option Nat
  file_path : String
  error_type : String
  error_message : String
deriving DecidableEq, Repr

/-- The catalog: table contents plus the id / creation-time counters the
storage engine supplies (autoincrement row id, CURRENT_TIMESTAMP). -/
structure DB where
  files : List FileRecord
  operations : List Operation
  errors : List ErrRecord
  nextFileId : Nat
  nextOpId : Nat
  nextTime : Nat
deriving DecidableEq, Repr

/-- The combined mutable world the services act on. -/
structure Sys where
  db : DB
  fs : FS
deriving DecidableEq, Repr

/-- Models fileQueries.getFileById. -/
def getFileById (db : DB) (i : Nat) : Option FileRecord :=
  db.files.find? (fun f => f.id == i)

/-- Models fileQueries.getFileByPath (lookup by original_path). -/
def getFileByPath (db : DB) (p : String) : Option FileRecord :=
  db.files.find? (fun f => f.original_path == p)

/-- The column values of fileQueries.updateFile (all its SET parameters). -/
structure FileUpdate where
  id : Nat
  current_path : Option String
  hash_sha256 : Option String
  hash_head : Option String
  mime_type : Option String
  exif_date : Option String
  resolved_date : String
  date_source : String
  status : String
  duplicate_of : Option Nat
  metadata_json : String
deriving DecidableEq, Repr

/-- Apply an updateFile row update to one record. -/
def applyFileUpdate (u : FileUpdate) (f : FileRecord) : FileRecord :=
  if f.id = u.id then
    { f with
      current_path := u.current_path
      hash_sha256 := u.hash_sha256
      hash_head := u.hash_head
      mime_type := u.mime_type
      exif_date := u.exif_date
      resolved_date := u.resolved_date
      date_source := u.date_source
      status := u.status
      duplicate_of := u.duplicate_of
      metadata_json := u.metadata_json }
  else f

/-- Models fileQueries.updateFile().run(u): update the row WHERE id = u.id
(the updated_timestamp side column is not modelled). -/
def updateFile (db : DB) (u : FileUpdate) : DB :=
  { db with files := db.files.map (applyFileUpdate u) }

/-- The column values of operationQueries.insertOperation. -/
structure OpInsert where
  batch_id : String
  file_id : Nat
  operation_type : String
  source_path : String
  destination_path : Option String
  hash_used : Option String
  reason : String
  status : String
deriving DecidableEq, Repr

/-- Models operationQueries.insertOperation().run: append a ledger row,
with the autoincrement id and CURRENT_TIMESTAMP creation order counter. -/
def insertOperation (db : DB) (o : OpInsert) : DB :=
  { db with
    operations := (db.operations ++
      [{ id := db.nextOpId
         batch_id := o.batch_id
         file_id := o.file_id
         operation_type := o.operation_type
         source_path := o.source_path
         destination_path := o.destination_path
         hash_used := o.hash_used
         reason := o.reason
         status := o.status
         created_at := db.nextTime }])
    nextOpId := db.nextOpId + 1
    nextTime := db.nextTime + 1 }

/-- Models operationQueries.updateOperationStatus().run(status, id). -/
def updateOperationStatus (db : DB) (newStatus : String) (opId : Nat) : DB :=
  { db with
    operations := (db.operations.map
      (fun o => if o.id = opId then { o with status := newStatus } else o)) }

/-- Models errorQueries.insertError().run (stack_trace column elided). -/
def insertError (db : DB) (e : ErrRecord) : DB :=
  { db with errors := db.errors ++ [e] }

/-! ## Duplicate detector (duplicateDetector.js) -/

/-- Models checkForExistingDuplicate(hash, excludeFileId): first row with
this hash and status moved, excluding the given id. A NULL hash matches
no row (SQL three-valued equality), and a 0 excludeFileId is falsy in
JavaScript so the exclusion clause is dropped. -/
def checkForExistingDuplicate (db : DB) (hash : Option String) (excludeFileId : Nat) : Option FileRecord :=
  match hash with
  | none => none
  | some h =>
    db.files.find? (fun f =>
      f.hash_sha256 == some h && f.status == "moved" &&
        (excludeFileId == 0 || f.id != excludeFileId))

/-- Ascending discovery-time order used by ORDER BY created_timestamp ASC. -/
def byDiscovery (a b : FileRecord) : Prop :=
  a.created_timestamp ≤ b.created_timestamp

instance : DecidableRel byDiscovery := fun a b =>
  Nat.decLe a.created_timestamp b.created_timestamp

instance : IsTotal FileRecord byDiscovery :=
  ⟨fun a b => Nat.le_total a.created_timestamp b.created_timestamp⟩

instance : IsTrans FileRecord byDiscovery :=
  ⟨fun _ _ _ h h2 => Nat.le_trans h h2⟩

/-- A group returned by findAllDuplicateGroups. -/
structure DupGroup where
  hash : String
  count : Nat
  totalSize : Nat
  files : List FileRecord
  original : Option FileRecord
  duplicates : List FileRecord
deriving DecidableEq, Repr

/-- The rows the GROUP BY subquery of findAllDuplicateGroups ranges over:
non-null hash and status not error. -/
def dupEligible (db : DB) : List FileRecord :=
  db.files.filter (fun f => f.hash_sha256.isSome && f.status != "error")

/-- The hash values selected by the HAVING COUNT(*) > 1 grouping, in
first-occurrence row order. -/
def dupHashes (db : DB) : List String :=
  (((dupEligible db).filterMap (fun f => f.hash_sha256)).eraseDups).filter
    (fun h => 1 < ((dupEligible db).filter (fun f => f.hash_sha256 == some h)).length)

/-- The per-group file query of findAllDuplicateGroups: every row with the
hash (no status filter), ordered by discovery time ascending. -/
def groupFiles (db : DB) (h : String) : List FileRecord :=
  List.insertionSort byDiscovery (db.files.filter (fun f => f.hash_sha256 == some h))

/-- Models findAllDuplicateGroups: one group per duplicated hash; the
first file (oldest by discovery time) is designated the original. -/
def findAllDuplicateGroups (db : DB) : List DupGroup :=
  (dupHashes db).map (fun h =>
    let files := groupFiles db h
    { hash := h
      count := files.length
      totalSize := (files.map (fun f => f.size)).sum
      files := files
      original := files.head?
      duplicates := files.tail })

/-! ## Organizer (organizer.js) -/

/-- The k-th numeric disambiguation candidate built in the collision
loop's body: dir joined with base, a space-parenthesised counter, ext. -/
def numberCand (dir base ext : String) (k : Nat) : String :=
  pathJoin dir (base ++ " (" ++ Nat.repr k ++ ")" ++ ext)

/-- The fingerprint-derived fallback path: the first 8 characters of the
hash in place of the counter. -/
def hashCand (dir base ext : String) (hash : Option String) : String :=
  pathJoin dir (base ++ " (" ++ strTake (hash.getD "") 8 ++ ")" ++ ext)

/-- The while loop body of handleCollision, with explicit fuel standing
for the unbounded iteration of the source: each round re-checks occupancy
of finalPath, builds the next numbered candidate, and switches to the
hash fallback once the incremented counter passes 100 (given a truthy
hash). Exhausted fuel returns the candidate reached, modelling the cut-off
of an iteration the source would continue. -/
def handleCollisionLoop (fs : FS) (dir base ext : String) (hash : Option String) :
    Nat → Nat → String → String
  | 0, _, finalPath => finalPath
  | fuel + 1, counter, finalPath =>
    if fsExists fs finalPath then
      let next := numberCand dir base ext counter
      let counter1 := counter + 1
      if 100 < counter1 && optTruthy hash then hashCand dir base ext hash
      else handleCollisionLoop fs dir base ext hash fuel counter1 next
    else finalPath

/-- Models handleCollision(destPath, hash): the loop starts at the proposed
destination with counter 1, decomposing destPath with the path helpers. -/
def handleCollision (fs : FS) (destPath : String) (hash : Option String) (fuel : Nat) : String :=
  let ext := pathExtname destPath
  handleCollisionLoop fs (pathDirname destPath) (pathBasenameStrip destPath ext) ext hash
    fuel 1 destPath

/-- Fuel ample for every terminating execution: with a truthy hash the
loop does at most 100 rounds, and without one it cannot pass more
distinct occupied candidates than the filesystem has entries. -/
def collisionFuel (fs : FS) : Nat := fs.length + 102

/-- An entry of the in-memory currentOrganizeStatus.operations list. -/
structure OrgOp where
  fileId : Nat
  source : String
  destination : String
  action : String
deriving DecidableEq, Repr

/-- The in-memory currentOrganizeStatus object. -/
structure OrgStatus where
  batchId : String
  destinationBase : String
  dryRun : Bool
  status : String
  totalFiles : Nat
  processedFiles : Nat
  movedFiles : Nat
  skippedFiles : Nat
  duplicateFiles : Nat
  errorFiles : Nat
  operations : List OrgOp
deriving DecidableEq, Repr

/-- Models logOperation: a ledger row with status completed. -/
def logOperation (db : DB) (batchId : String) (fileId : Nat) (operationType sourcePath : String)
    (destPath : Option String) (hash : Option String) (reason : String) : DB :=
  insertOperation db
    { batch_id := batchId
      file_id := fileId
      operation_type := operationType
      source_path := sourcePath
      destination_path := destPath
      hash_used := hash
      reason := reason
      status := "completed" }

/-- Models organizeFile: per-file organize step. Steps in source order:
source-existence check (skip entry when gone), duplicate-at-destination
check (mark duplicate, also under dryRun), destination-path generation,
collision handling, then either a dry-run ledger entry or mkdir + rename +
record update + ledger entry. The surrounding catch is unreachable here:
every modelled filesystem operation is total. -/
def organizeFile (today : YMD) (st : Sys) (os : OrgStatus) (file : FileRecord)
    (destinationBase batchId : String) (dryRun : Bool) : Sys × OrgStatus :=
  let sourcePath := jsOr file.current_path file.original_path
  if !fsExists st.fs sourcePath then
    ({ st with db := (logOperation st.db batchId file.id "skip" sourcePath none
        file.hash_sha256 "Source file not found") },
     { os with skippedFiles := os.skippedFiles + 1 })
  else
    match checkForExistingDuplicate st.db file.hash_sha256 file.id with
    | some existingDuplicate =>
      let db1 := updateFile st.db
        { id := file.id
          current_path := file.current_path
          hash_sha256 := file.hash_sha256
          hash_head := file.hash_head
          mime_type := file.mime_type
          exif_date := file.exif_date
          resolved_date := file.resolved_date
          date_source := file.date_source
          status := "duplicate"
          duplicate_of := some existingDuplicate.id
          metadata_json := file.metadata_json }
      let db2 := logOperation db1 batchId file.id "duplicate" sourcePath
        (existingDuplicate.current_path) file.hash_sha256
        ("Duplicate of file " ++ Nat.repr existingDuplicate.id)
      ({ st with db := db2 }, { os with duplicateFiles := os.duplicateFiles + 1 })
    | none =>
      let destPath0 := generateDestinationPath today destinationBase file.resolved_date file.filename
      let destPath := handleCollision st.fs destPath0 file.hash_sha256 (collisionFuel st.fs)
      if dryRun then
        ({ st with db := (logOperation st.db batchId file.id "move" sourcePath (some destPath)
            file.hash_sha256 "Dry run - would move") },
         { os with
            movedFiles := os.movedFiles + 1
            operations := (os.operations ++
              [{ fileId := file.id, source := sourcePath, destination := destPath,
                 action := "would_move" }]) })
      else
        let fs1 := fsRename st.fs sourcePath destPath
        let db1 := updateFile st.db
          { id := file.id
            current_path := some destPath
            hash_sha256 := file.hash_sha256
            hash_head := file.hash_head
            mime_type := file.mime_type
            exif_date := file.exif_date
            resolved_date := file.resolved_date
            date_source := file.date_source
            status := "moved"
            duplicate_of := none
            metadata_json := file.metadata_json }
        let db2 := logOperation db1 batchId file.id "move" sourcePath (some destPath)
          file.hash_sha256 "File moved successfully"
        ({ db := db2, fs := fs1 },
         { os with
            movedFiles := os.movedFiles + 1
            operations := (os.operations ++
              [{ fileId := file.id, source := sourcePath, destination := destPath,
                 action := "moved" }]) })

/-- The loop body of organizeFiles: one organizeFile call followed by the
processedFiles increment. -/
def organizeStep (today : YMD) (destinationBase batchId : String) (dryRun : Bool)
    (acc : Sys × OrgStatus) (file : FileRecord) : Sys × OrgStatus :=
  let step := organizeFile today acc.1 acc.2 file destinationBase batchId dryRun
  (step.1, { step.2 with processedFiles := step.2.processedFiles + 1 })

/-- Selection of organizeFiles: the explicit id set intersected with
status pending, or every pending record when the id list is null or
empty (the JavaScript fileIds && fileIds.length > 0 test). -/
def filesToOrganize (db : DB) (fileIds : Option (List Nat)) : List FileRecord :=
  match fileIds with
  | some ids =>
    if 0 < ids.length then
      db.files.filter (fun f => ids.contains f.id && f.status == "pending")
    else db.files.filter (fun f => f.status == "pending")
  | none => db.files.filter (fun f => f.status == "pending")

/-- Models organizeFiles(destinationBase, dryRun, fileIds): fresh batch id
(supplied as the uuid), per-file fold over the selected records, final
status completed. The per-file counter increment of processedFiles is
folded in here. -/
def organizeFiles (today : YMD) (st : Sys) (destinationBase : String) (dryRun : Bool)
    (fileIds : Option (List Nat)) (batchId : String) : Sys × OrgStatus :=
  let sel := filesToOrganize st.db fileIds
  let os0 : OrgStatus :=
    { batchId := batchId
      destinationBase := destinationBase
      dryRun := dryRun
      status := "in_progress"
      totalFiles := sel.length
      processedFiles := 0
      movedFiles := 0
      skippedFiles := 0
      duplicateFiles := 0
      errorFiles := 0
      operations := [] }
  let r := sel.foldl (organizeStep today destinationBase batchId dryRun) (st, os0)
  (r.1, { r.2 with status := "completed" })

/-! ## Revert engine (revert.js) -/

/-- The success value of revertOperation. -/
structure RevertOk where
  operationId : Nat
  fileId : Nat
  originalPath : String
  revertedFrom : String
deriving DecidableEq, Repr

/-- Models revertOperation(operation). Thrown Errors become Except.error
with the source's message; every throw in the source happens before the
rename and the record / ledger writes, so an error result carries no new
state (the single revert is atomic). The mkdir of the original directory
and the best-effort empty-directory cleanup do not touch the file map.
The uuid batch id of the logged revert entry is modelled as a fresh
string from the ledger counter. -/
def revertOperation (hashFn : String → String) (st : Sys) (operation : Operation) :
    Except String (Sys × RevertOk) :=
  if operation.operation_type ≠ "move" then
    Except.error "Only move operations can be reverted"
  else if operation.status = "reverted" then
    Except.error "Operation already reverted"
  else
    match getFileById st.db operation.file_id with
    | none => Except.error "Associated file not found"
    | some file =>
      let currentPath := operation.destination_path.getD ""
      let originalPath := operation.source_path
      match fsGet st.fs currentPath with
      | none => Except.error "File no longer exists at destination path"
      | some content =>
        if optTruthy operation.hash_used &&
            (hashFn content != operation.hash_used.getD "") then
          Except.error "File has been modified since it was moved"
        else if fsExists st.fs originalPath then
          Except.error "A file already exists at the original location"
        else
          let fs1 := fsRename st.fs currentPath originalPath
          let db1 := updateFile st.db
            { id := file.id
              current_path := some originalPath
              hash_sha256 := file.hash_sha256
              hash_head := file.hash_head
              mime_type := file.mime_type
              exif_date := file.exif_date
              resolved_date := file.resolved_date
              date_source := file.date_source
              status := "pending"
              duplicate_of := none
              metadata_json := file.metadata_json }
          let db2 := updateOperationStatus db1 "reverted" operation.id
          let db3 := insertOperation db2
            { batch_id := "revert-" ++ Nat.repr db2.nextOpId
              file_id := file.id
              operation_type := "revert"
              source_path := currentPath
              destination_path := some originalPath
              hash_used := operation.hash_used
              reason := "Reverted operation " ++ Nat.repr operation.id
              status := "completed" }
          Except.ok ({ db := db3, fs := fs1 },
            { operationId := operation.id
              fileId := file.id
              originalPath := originalPath
              revertedFrom := currentPath })

/-- Newest-first ledger order used by ORDER BY created_at DESC. -/
def byNewest (a b : Operation) : Prop :=
  b.created_at ≤ a.created_at

instance : DecidableRel byNewest := fun a b =>
  Nat.decLe b.created_at a.created_at

instance : IsTotal Operation byNewest :=
  ⟨fun a b => Nat.le_total b.created_at a.created_at⟩

instance : IsTrans Operation byNewest :=
  ⟨fun _ _ _ h h2 => Nat.le_trans h2 h⟩

/-- The batch query of revertBatch: all completed move entries of the
batch, newest first. -/
def selectBatchMoves (db : DB) (batchId : String) : List Operation :=
  List.insertionSort byNewest
    (db.operations.filter (fun o =>
      o.batch_id == batchId && o.operation_type == "move" && o.status == "completed"))

/-- The aggregate result of revertBatch. -/
structure BatchRevertResult where
  batchId : String
  totalOperations : Nat
  reverted : Nat
  failed : Nat
  skipped : Nat
  errors : List (Nat × String)
deriving DecidableEq, Repr

/-- The loop body of revertBatch: revert one entry, counting success as
reverted, the "Operation already reverted" failure as skipped, and any
other failure as failed with its message accumulated; a failure leaves
the world untouched. -/
def revertBatchStep (hashFn : String → String) (acc : Sys × BatchRevertResult)
    (operation : Operation) : Sys × BatchRevertResult :=
  match revertOperation hashFn acc.1 operation with
  | Except.ok (st1, _) => (st1, { acc.2 with reverted := acc.2.reverted + 1 })
  | Except.error msg =>
    if msg = "Operation already reverted" then
      (acc.1, { acc.2 with skipped := acc.2.skipped + 1 })
    else
      (acc.1, { acc.2 with
        failed := acc.2.failed + 1
        errors := (acc.2.errors ++ [(operation.id, msg)]) })

/-- Models revertBatch(batchId): throws when no revertible operation is
selected, otherwise reverts each selected entry independently, counting
an "Operation already reverted" failure as skipped and accumulating every
other failure without aborting the batch. -/
def revertBatch (hashFn : String → String) (st : Sys) (batchId : String) :
    Except String (Sys × BatchRevertResult) :=
  let operations := selectBatchMoves st.db batchId
  if operations.length = 0 then
    Except.error "No revertible operations found in batch"
  else
    Except.ok (operations.foldl (revertBatchStep hashFn)
      (st, { batchId := batchId
             totalOperations := operations.length
             reverted := 0
             failed := 0
             skipped := 0
             errors := [] }))

/-! ## Scanner (scanner.js, metadata.js, hasher.js, config.js)

A directory tree is the scanner's input: each directory either enumerates
its entries (regular files, partitioned from subdirectories as the source
does after readdir) or fails to enumerate (readdir throwing). A file
entry's content is none when reading its metadata / bytes fails, which
drives the per-file catch. -/

/-- A regular-file directory entry; content none models a file whose
stat/read fails during processing. -/
structure FEnt where
  name : String
  content : Option String
deriving DecidableEq, Repr

mutual
/-- A directory: its file entries and subdirectories, or a failing
enumeration. -/
inductive FTree where
  | node : List FEnt → FForest → FTree
  | errDir : String → FTree
/-- The subdirectories of a directory: name and subtree each. -/
inductive FForest where
  | nil : FForest
  | cons : String → FTree → FForest → FForest
end

/-- config.skipFiles. -/
def skipFiles : List String :=
  [".DS_Store", "Thumbs.db", "desktop.ini", ".gitkeep", ".gitignore"]

/-- config.skipDirectories. -/
def skipDirectories : List String :=
  ["node_modules", ".git", "__pycache__", ".cache", ".Trash"]

/-- Models shouldSkipFile (its dirPath argument is unused in the source):
hidden names and the static skip list. -/
def shouldSkipFile (filename : String) : Bool :=
  filename.startsWith "." || skipFiles.contains filename

/-- Models shouldSkipDirectory. -/
def shouldSkipDirectory (dirname : String) : Bool :=
  dirname.startsWith "." || skipDirectories.contains dirname

/-- config.partialHashSize (64 KiB). -/
def partialHashSize : Nat := 65536

/-- Models calculateHashes(filePath, fileSize) over the file's content:
for a small file the prefix digest is the full digest (single read),
otherwise both digests are computed. -/
def calculateHashes (hashFn : String → String) (content : String) : String × String :=
  if content.length ≤ partialHashSize then
    (hashFn content, hashFn content)
  else (hashFn content, hashFn (strTake content partialHashSize))

/-- The in-memory currentScanStatus object (session bookkeeping elided). -/
structure ScanStatus where
  sourcePath : String
  status : String
  totalFiles : Nat
  processedFiles : Nat
  newFiles : Nat
  skippedFiles : Nat
  errorFiles : Nat
deriving DecidableEq, Repr

/-- The scanner's evolving state: catalog plus status counters. -/
structure ScanSt where
  db : DB
  stat : ScanStatus
deriving DecidableEq, Repr

mutual
/-- Models countFiles (pass 1): eligible files of this level plus, when
recursive, the counts of non-skipped subdirectories. A directory whose
enumeration fails contributes 0 (its readdir error is caught and logged
to the console; siblings continue). -/
def countFiles (recursive : Bool) : FTree → Nat
  | FTree.node files subdirs =>
    (files.filter (fun e => !shouldSkipFile e.name)).length +
      (if recursive then countForest recursive subdirs else 0)
  | FTree.errDir _ => 0

/-- Pass-1 count over the subdirectories of one directory. -/
def countForest (recursive : Bool) : FForest → Nat
  | FForest.nil => 0
  | FForest.cons name t rest =>
    (if !shouldSkipDirectory name then countFiles recursive t else 0) +
      countForest recursive rest
end

/-- The FileRecord processFile inserts for a newly discovered readable
file. Metadata-derived columns with no bearing on any claim (mime type,
embedded date, resolved date) carry fixed placeholder values. -/
def scanRecord (hashFn : String → String) (db : DB) (filePath : String) (c : String) :
    FileRecord :=
  let hashes := calculateHashes hashFn c
  { id := db.nextFileId
    original_path := filePath
    current_path := some filePath
    filename := pathBasename filePath
    extension := pathExtname filePath
    size := c.length
    hash_sha256 := some hashes.1
    hash_head := some hashes.2
    mime_type := some "application/octet-stream"
    exif_date := none
    resolved_date := ""
    date_source := "discovered"
    status := "pending"
    duplicate_of := none
    metadata_json := "{}"
    created_timestamp := db.nextTime }

/-- Models processFile: skip (counted) when a FileRecord already exists at
this exact original path; otherwise extract metadata, hash, resolve date
and insert a pending record. A failing read takes the per-file catch:
an ErrorRecord and the error counter, no insertion. -/
def processFile (hashFn : String → String) (s : ScanSt) (filePath : String)
    (content : Option String) : ScanSt :=
  match getFileByPath s.db filePath with
  | some _ =>
    { s with stat := { s.stat with
        processedFiles := s.stat.processedFiles + 1
        skippedFiles := s.stat.skippedFiles + 1 } }
  | none =>
    match content with
    | none =>
      { db := insertError s.db
          { file_id := none
            file_path := filePath
            error_type := "file_processing"
            error_message := "read error" }
        stat := { s.stat with
          processedFiles := s.stat.processedFiles + 1
          errorFiles := s.stat.errorFiles + 1 } }
    | some c =>
      { db := { s.db with
          files := (s.db.files ++ [scanRecord hashFn s.db filePath c])
          nextFileId := s.db.nextFileId + 1
          nextTime := s.db.nextTime + 1 }
        stat := { s.stat with
          processedFiles := s.stat.processedFiles + 1
          newFiles := s.stat.newFiles + 1 } }

/-- One directory entry during pass 2: a skipped name only counts, an
eligible file goes through processFile. -/
def processEntry (hashFn : String → String) (dirPath : String) (acc : ScanSt)
    (e : FEnt) : ScanSt :=
  if !shouldSkipFile e.name then
    processFile hashFn acc (pathJoin dirPath e.name) e.content
  else
    { acc with stat := { acc.stat with
        skippedFiles := acc.stat.skippedFiles + 1 } }

mutual
/-- Models processDirectory (pass 2): skipped files are counted while
partitioning, eligible files are processed in entry order (the fixed-size
batching only drives progress updates, preserving per-file order), then
non-skipped subdirectories are processed when recursive. A failing
enumeration takes the directory-level catch: a directory_access
ErrorRecord, nothing else. -/
def processDirectory (hashFn : String → String) (s : ScanSt) (dirPath : String)
    (recursive : Bool) : FTree → ScanSt
  | FTree.node files subdirs =>
    let s1 := files.foldl (processEntry hashFn dirPath) s
    if recursive then processForest hashFn s1 dirPath recursive subdirs else s1
  | FTree.errDir msg =>
    { s with db := (insertError s.db
        { file_id := none
          file_path := dirPath
          error_type := "directory_access"
          error_message := msg }) }

/-- Pass-2 processing of one directory's subdirectories, left to right. -/
def processForest (hashFn : String → String) (s : ScanSt) (dirPath : String)
    (recursive : Bool) : FForest → ScanSt
  | FForest.nil => s
  | FForest.cons name t rest =>
    let s1 :=
      if !shouldSkipDirectory name then
        processDirectory hashFn s (pathJoin dirPath name) recursive t
      else s
    processForest hashFn s1 dirPath recursive rest
end

mutual
/-- Specification helper: the full paths of the eligible (non-skipped)
readable files a pass-2 walk visits and can catalog, in visit order. -/
def visitPaths (dirPath : String) (recursive : Bool) : FTree → List String
  | FTree.node files subdirs =>
    ((files.filter (fun e => !shouldSkipFile e.name && e.content.isSome)).map
      (fun e => pathJoin dirPath e.name)) ++
      (if recursive then visitPathsForest dirPath recursive subdirs else [])
  | FTree.errDir _ => []

/-- Specification helper: visited paths of one directory's
subdirectories. -/
def visitPathsForest (dirPath : String) (recursive : Bool) : FForest → List String
  | FForest.nil => []
  | FForest.cons name t rest =>
    (if !shouldSkipDirectory name then
      visitPaths (pathJoin dirPath name) recursive t
    else []) ++ visitPathsForest dirPath recursive rest
end

/-- A FileRecord with this original path exists in the catalog. -/
def HasPath (db : DB) (p : String) : Prop :=
  ∃ f ∈ db.files, f.original_path = p

/-- Models scanDirectory(sourcePath, recursive): count pass, process
pass, status completed. Both passes catch their failures internally, so
the surrounding catch (scan status error) is unreachable; session-table
updates are not modelled. -/
def scanDirectory (hashFn : String → String) (db : DB) (sourcePath : String)
    (recursive : Bool) (tree : FTree) : DB × ScanStatus :=
  let totalFiles := countFiles recursive tree
  let s1 := processDirectory hashFn
    { db := db
      stat :=
        { sourcePath := sourcePath
          status := "in_progress"
          totalFiles := totalFiles
          processedFiles := 0
          newFiles := 0
          skippedFiles := 0
          errorFiles := 0 } }
    sourcePath recursive tree
  (s1.db, { s1.stat with status := "completed" })

/-! ## Concrete worlds used by counterexamples and witnesses -/

/-- A concrete content digest standing in for SHA-256 in evaluations. -/
def hashFn0 : String → String := fun c => "#" ++ c

/-- A catalog row with neutral column values, specialised per example. -/
def baseFile : FileRecord :=
  { id := 0
    original_path := ""
    current_path := none
    filename := ""
    extension := ""
    size := 0
    hash_sha256 := none
    hash_head := none
    mime_type := none
    exif_date := none
    resolved_date := ""
    date_source := ""
    status := "pending"
    duplicate_of := none
    metadata_json := "{}"
    created_timestamp := 0 }

/-- An empty catalog. -/
def dbEmpty : DB :=
  { files := [], operations := [], errors := [], nextFileId := 1, nextOpId := 1, nextTime := 0 }

/-- A neutral ledger row, specialised per example. -/
def baseOp : Operation :=
  { id := 0
    batch_id := ""
    file_id := 0
    operation_type := ""
    source_path := ""
    destination_path := none
    hash_used := none
    reason := ""
    status := ""
    created_at := 0 }

/-- The calendar date the examples are evaluated at. -/
def today0 : YMD := ⟨2026, 10, 11⟩

/-- A moved file whose ledger entry can be reverted: record, entry,
destination content in place. -/
def c3file : FileRecord :=
  { baseFile with
    id := 1
    original_path := "/src/a.txt"
    current_path := some "/dest/2023/07/15/a.txt"
    filename := "a.txt"
    status := "moved"
    hash_sha256 := some "#hello"
    created_timestamp := 1 }

/-- The completed move ledger entry for c3file. -/
def c3op : Operation :=
  { baseOp with
    id := 1
    batch_id := "b"
    file_id := 1
    operation_type := "move"
    source_path := "/src/a.txt"
    destination_path := some "/dest/2023/07/15/a.txt"
    hash_used := some "#hello"
    reason := "File moved successfully"
    status := "completed"
    created_at := 10 }

/-- World after one real move: ready for a batch revert. -/
def c3st : Sys :=
  { db := { files := [c3file], operations := [c3op], errors := [],
            nextFileId := 2, nextOpId := 2, nextTime := 11 }
    fs := [("/dest/2023/07/15/a.txt", "hello")] }

/-- World after the first (successful) batch revert of c3st. -/
def c3st1 : Sys :=
  match revertBatch hashFn0 c3st "b" with
  | Except.ok (s, _) => s
  | Except.error _ => c3st

/-- An error-status record sharing the c4db fingerprint, discovered
first. -/
def c4fA : FileRecord :=
  { baseFile with
    id := 1
    original_path := "/s/err.jpg"
    status := "error"
    hash_sha256 := some "h"
    created_timestamp := 1 }

/-- A pending record sharing the c4db fingerprint. -/
def c4fB : FileRecord :=
  { baseFile with
    id := 2
    original_path := "/s/b.jpg"
    status := "pending"
    hash_sha256 := some "h"
    created_timestamp := 5 }

/-- A later pending record sharing the c4db fingerprint. -/
def c4fC : FileRecord :=
  { baseFile with
    id := 3
    original_path := "/s/c.jpg"
    status := "pending"
    hash_sha256 := some "h"
    created_timestamp := 10 }

/-- Three records sharing a fingerprint, the earliest-discovered of which
has status error (only the two pending ones qualify the hash for
grouping). -/
def c4db : DB :=
  { dbEmpty with files := [c4fA, c4fB, c4fC], nextFileId := 4 }

/-- The group findAllDuplicateGroups returns on c4db. -/
def c4group : DupGroup :=
  { hash := "h"
    count := 3
    totalSize := 0
    files := [c4fA, c4fB, c4fC]
    original := some c4fA
    duplicates := [c4fB, c4fC] }

/-- World exercising dry-run organize: one already-moved record, one
pending record duplicating it, and two pending records whose destination
paths collide with each other. -/
def c8st : Sys :=
  { db := { dbEmpty with
      files :=
        [{ baseFile with
            id := 1
            original_path := "/d/old.jpg"
            current_path := some "/d/old.jpg"
            filename := "old.jpg"
            status := "moved"
            hash_sha256 := some "#x"
            created_timestamp := 1 },
         { baseFile with
            id := 2
            original_path := "/s/b.jpg"
            current_path := some "/s/b.jpg"
            filename := "b.jpg"
            status := "pending"
            hash_sha256 := some "#x"
            resolved_date := "2015-07-15T10:00:00.000Z"
            created_timestamp := 2 },
         { baseFile with
            id := 3
            original_path := "/s/c.jpg"
            current_path := some "/s/c.jpg"
            filename := "p.jpg"
            status := "pending"
            hash_sha256 := some "#c"
            resolved_date := "2015-07-15T10:00:00.000Z"
            created_timestamp := 3 },
         { baseFile with
            id := 4
            original_path := "/s/d.jpg"
            current_path := some "/s/d.jpg"
            filename := "p.jpg"
            status := "pending"
            hash_sha256 := some "#d"
            resolved_date := "2015-07-15T10:00:00.000Z"
            created_timestamp := 4 }]
      nextFileId := 5 }
    fs := [("/s/b.jpg", "x"), ("/s/c.jpg", "c"), ("/s/d.jpg", "d")] }

/-- World after the dry run on c8st. -/
def c8dry : Sys :=
  (organizeFiles today0 c8st "/dest" true none "b1").1

/-- A single pending record for the dry-run-ledger example. -/
def c10file : FileRecord :=
  { baseFile with
    id := 1
    original_path := "/s/x.txt"
    current_path := some "/s/x.txt"
    filename := "x.txt"
    status := "pending"
    hash_sha256 := some "#X"
    resolved_date := "2015-07-15T10:00:00.000Z"
    created_timestamp := 1 }

/-- World with one pending file on disk and an empty ledger. -/
def c10st : Sys :=
  { db := { dbEmpty with files := [c10file], nextFileId := 2 }
    fs := [("/s/x.txt", "X")] }

/-- An organize status snapshot for the dry-run-ledger example. -/
def c10os : OrgStatus :=
  { batchId := "bX"
    destinationBase := "/dest"
    dryRun := true
    status := "in_progress"
    totalFiles := 1
    processedFiles := 0
    movedFiles := 0
    skippedFiles := 0
    duplicateFiles := 0
    errorFiles := 0
    operations := [] }

/-- A ledger entry of kind scan (not revertible). -/
def exOpScan : Operation :=
  { baseOp with id := 7, operation_type := "scan", status := "completed" }

/-- An already-reverted move ledger entry. -/
def exOpReverted : Operation :=
  { baseOp with id := 8, operation_type := "move", status := "reverted" }

/-- What a dry run may do to one catalog row: identity, path columns and
id untouched; the status may only flip to duplicate (the
duplicate-at-destination marking, which the source performs under dryRun
too). -/
def dryKeeps (f g : FileRecord) : Prop :=
  g.id = f.id ∧ g.original_path = f.original_path ∧ g.current_path = f.current_path ∧
    ((g.status = f.status ∧ g.duplicate_of = f.duplicate_of) ∨ g.status = "duplicate")

/-- The (operation kind, destination) decisions a batch logged. -/
def moveDecisions (db : DB) (batchId : String) : List (String × Option String) :=
  (db.operations.filter (fun o => o.batch_id == batchId && o.operation_type == "move")).map
    (fun o => (o.operation_type, o.destination_path))

/-! ## Specification helpers for the organize/revert round trip -/

/-- The completed move entries a batch holds, in ledger (insertion)
order: the unsorted part of revertBatch's selection. -/
def movesOfBatch (db : DB) (batchId : String) : List Operation :=
  db.operations.filter (fun o =>
    o.batch_id == batchId && o.operation_type == "move" && o.status == "completed")

/-- Replay a list of move entries against a filesystem: the renames the
organize run performed, in order. -/
def applyMoveOps (fs : FS) (ops : List Operation) : FS :=
  ops.foldl (fun acc op => fsRename acc op.source_path (op.destination_path.getD "")) fs

/-- The facts an organize run establishes about its batch's move entries,
relative to the pre-organize world st0: ledger order is strictly
chronological; the moved files are distinct; sources and destinations
are pairwise distinct and disjoint; each entry moved an existing source
whose content hashes to the recorded verification fingerprint, onto a
destination that was free before the run; and each entry belongs to a
catalogued file whose pre-organize path is the entry's source. -/
def TraceOk (hashFn : String → String) (b : String) (st0 : Sys)
    (moves : List Operation) : Prop :=
  List.Chain' (fun a a2 => a.created_at < a2.created_at) moves ∧
  (moves.map (fun o => o.file_id)).Nodup ∧
  List.Pairwise (fun a a2 => a.source_path ≠ a2.source_path ∧
    a.destination_path.getD "" ≠ a2.destination_path.getD "") moves ∧
  (∀ a ∈ moves, ∀ a2 ∈ moves, a.source_path ≠ a2.destination_path.getD "") ∧
  (∀ op ∈ moves, op.operation_type = "move" ∧ op.status = "completed" ∧
    op.batch_id = b ∧
    (∃ c, fsGet st0.fs op.source_path = some c ∧ op.hash_used = some (hashFn c) ∧
      hashFn c ≠ "") ∧
    (∃ d, op.destination_path = some d ∧ fsExists st0.fs d = false) ∧
    (∃ f ∈ st0.db.files, f.id = op.file_id ∧
      op.source_path = jsOr f.current_path f.original_path))

/-- The path organizeFile reads a record's file from. -/
def srcOf (f : FileRecord) : String :=
  jsOr f.current_path f.original_path

/-- The proposed (pre-collision) destination organizeFile computes for a
record. -/
def dstOf (today : YMD) (destBase : String) (f : FileRecord) : String :=
  generateDestinationPath today destBase f.resolved_date f.filename

/-- The ledger entry a real move appends, given the catalog counters at
that point. -/
def moveOpOf (b : String) (f : FileRecord) (destPath : String) (oid t : Nat) : Operation :=
  { id := oid
    batch_id := b
    file_id := f.id
    operation_type := "move"
    source_path := srcOf f
    destination_path := some destPath
    hash_used := f.hash_sha256
    reason := "File moved successfully"
    status := "completed"
    created_at := t }

/-- Row-level frame between two files tables: ids preserved pointwise,
and a row whose id is outside the given set is untouched. -/
def FilesFrame (ids : List Nat) (l l2 : List FileRecord) : Prop :=
  List.Forall₂ (fun g g2 => g2.id = g.id ∧ (g.id ∉ ids → g2 = g)) l l2

/-- The fingerprint-fallback path handleCollision can switch to for a
record: its proposed destination with the 8-character hash suffix. -/
def hashCandOf (today : YMD) (destBase : String) (f : FileRecord) : String :=
  hashCand (pathDirname (dstOf today destBase f))
    (pathBasenameStrip (dstOf today destBase f) (pathExtname (dstOf today destBase f)))
    (pathExtname (dstOf today destBase f)) f.hash_sha256

/-- Every path collision resolution can choose for a record: the proposed
destination itself, its numeric disambiguations (1) .. (100), and the
fingerprint-fallback path. -/
def candList (today : YMD) (destBase : String) (f : FileRecord) : List String :=
  dstOf today destBase f ::
    ((List.range 100).map (fun k =>
      numberCand (pathDirname (dstOf today destBase f))
        (pathBasenameStrip (dstOf today destBase f)
          (pathExtname (dstOf today destBase f)))
        (pathExtname (dstOf today destBase f)) (k + 1)) ++
     [hashCandOf today destBase f])

/-- Round-trip example: first of two same-name same-date pending files,
destined to collide at one proposed destination. -/
def c1fA : FileRecord :=
  { baseFile with
    id := 1
    original_path := "/s/a.jpg"
    current_path := some "/s/a.jpg"
    filename := "p.jpg"
    status := "pending"
    hash_sha256 := some "#A"
    resolved_date := "2015-07-15T10:00:00.000Z"
    created_timestamp := 1 }

/-- Round-trip example: the second colliding pending file. -/
def c1fB : FileRecord :=
  { baseFile with
    id := 2
    original_path := "/s/b.jpg"
    current_path := some "/s/b.jpg"
    filename := "p.jpg"
    status := "pending"
    hash_sha256 := some "#B"
    resolved_date := "2015-07-15T10:00:00.000Z"
    created_timestamp := 2 }

/-- Round-trip example world: both colliding files on disk, and their
shared proposed destination already occupied by an uncatalogued file, so
collision resolution must disambiguate both moves. -/
def c1st : Sys :=
  { db := { dbEmpty with files := [c1fA, c1fB], nextFileId := 3 }
    fs := [("/s/a.jpg", "A"), ("/s/b.jpg", "B"), ("/dest/2015/07/15/p.jpg", "Z")] }

/-! # Theorems -/

/-- Helper: resolveDate as a cascade over the first present-and-valid
candidate of each priority. -/
theorem resolveDate_eq (now : Int) (m : DateMeta) :
    resolveDate now m =
      match validOf now m.exifDate with
      | some t => (t, "exif")
      | none =>
        match validOf now m.createdAt with
        | some t => (t, "created")
        | none =>
          match validOf now m.modifiedAt with
          | some t => (t, "modified")
          | none => (now, "discovered") := by
  obtain ⟨e, c, mo⟩ := m
  have hmo : resolveDateModified now ⟨e, c, mo⟩ =
      match validOf now mo with
      | some t => (t, "modified")
      | none => (now, "discovered") := by
    cases mo with
    | none => rfl
    | some d =>
      cases d with
      | invalid => rfl
      | valid t =>
        by_cases h : isValidDate now (JSDate.valid t) = true
        · simp [resolveDateModified, validOf, h]
        · simp [resolveDateModified, validOf, h]
  have hc : resolveDateCreated now ⟨e, c, mo⟩ =
      match validOf now c with
      | some t => (t, "created")
      | none =>
        match validOf now mo with
        | some t => (t, "modified")
        | none => (now, "discovered") := by
    cases c with
    | none => simpa [resolveDateCreated, validOf] using hmo
    | some d =>
      cases d with
      | invalid => simpa [resolveDateCreated, validOf] using hmo
      | valid t =>
        by_cases h : isValidDate now (JSDate.valid t) = true
        · simp [resolveDateCreated, validOf, h]
        · simpa [resolveDateCreated, validOf, h] using hmo
  cases e with
  | none => simpa [resolveDate, validOf] using hc
  | some d =>
    cases d with
    | invalid => simpa [resolveDate, validOf] using hc
    | valid t =>
      by_cases h : isValidDate now (JSDate.valid t) = true
      · simp [resolveDate, validOf, h]
      · simpa [resolveDate, validOf, h] using hc

/-- C5 counterexample: with all candidates present and valid, resolveDate
tags the embedded-metadata result with the source value exif, not
metadata as the claim states. -/
theorem resolveDate_metadata_tag_counterexample :
    resolveDate 1700000000000
        ⟨some (JSDate.valid 1600000000000), some (JSDate.valid 1500000000000),
         some (JSDate.valid 1400000000000)⟩ =
      (1600000000000, "exif") ∧ "exif" ≠ "metadata" := by
  exact ⟨by decide, by decide⟩

/-- C5 amended: resolveDate returns the first valid date of the strict
priority chain embedded-metadata, filesystem-created, filesystem-modified,
else the current time, tagging the result exif, created, modified or
discovered respectively (the stored tag for the embedded date is exif,
not metadata). -/
theorem resolveDate_priority_chain (now : Int) (m : DateMeta) :
    (∀ t, validOf now m.exifDate = some t → resolveDate now m = (t, "exif")) ∧
    (validOf now m.exifDate = none →
      ∀ t, validOf now m.createdAt = some t → resolveDate now m = (t, "created")) ∧
    (validOf now m.exifDate = none → validOf now m.createdAt = none →
      ∀ t, validOf now m.modifiedAt = some t → resolveDate now m = (t, "modified")) ∧
    (validOf now m.exifDate = none → validOf now m.createdAt = none →
      validOf now m.modifiedAt = none → resolveDate now m = (now, "discovered")) ∧
    ((resolveDate now m).2 = "exif" ∨ (resolveDate now m).2 = "created" ∨
      (resolveDate now m).2 = "modified" ∨ (resolveDate now m).2 = "discovered") := by
  refine ⟨?_, ?_, ?_, ?_, ?_⟩
  · intro t h; rw [resolveDate_eq]; rw [h]
  · intro he t h; rw [resolveDate_eq]; rw [he, h]
  · intro he hc t h; rw [resolveDate_eq]; rw [he, hc, h]
  · intro he hc hm; rw [resolveDate_eq]; rw [he, hc, hm]
  · rw [resolveDate_eq]
    cases validOf now m.exifDate with
    | some t => left; rfl
    | none =>
      cases validOf now m.createdAt with
      | some t => right; left; rfl
      | none =>
        cases validOf now m.modifiedAt with
        | some t => right; right; left; rfl
        | none => right; right; right; rfl

/-- C5 witness: the amended chain applied at concrete candidates (exif
absent, created valid). -/
theorem resolveDate_priority_chain_witness :
    resolveDate 1700000000000 ⟨none, some (JSDate.valid 5), none⟩ = (5, "created") :=
  (resolveDate_priority_chain 1700000000000 ⟨none, some (JSDate.valid 5), none⟩).2.1
    (by decide) 5 (by decide)

/-- C4 counterexample: a duplicate group returned by
findAllDuplicateGroups can contain a record with status error, and that
record (earliest by discovery time) is even the designated original. -/
theorem findAllDuplicateGroups_error_member_counterexample :
    ∃ g ∈ findAllDuplicateGroups c4db, ∃ f ∈ g.files,
      f.status = "error" ∧ g.original = some f := by
  decide

/-- C4 amended: every group returned by findAllDuplicateGroups has at
least two records sharing the fingerprint, lists its files ordered by
discovery time ascending, designates the earliest-discovered record as
the original and the rest as the duplicates; however the member list may
include records with status error (the error filter applies only to the
group-qualifying count), so the no-error-member part of the claim is
dropped. -/
theorem findAllDuplicateGroups_groups_spec (db : DB) :
    ∀ g ∈ findAllDuplicateGroups db,
      2 ≤ g.files.length ∧
      List.Sorted byDiscovery g.files ∧
      g.original = g.files.head? ∧
      (∀ f ∈ g.files, ∀ f0, g.original = some f0 →
        f0.created_timestamp ≤ f.created_timestamp) ∧
      g.duplicates = g.files.tail ∧
      (∀ f ∈ g.files, f.hash_sha256 = some g.hash) := by
  intro g hg
  rw [findAllDuplicateGroups] at hg
  obtain ⟨h, hh, rfl⟩ := List.mem_map.mp hg
  have hcount : 1 <
      ((dupEligible db).filter (fun f => f.hash_sha256 == some h)).length := by
    have hd := (List.mem_filter.mp hh).2
    exact of_decide_eq_true hd
  have hsorted : List.Sorted byDiscovery (groupFiles db h) :=
    List.sorted_insertionSort byDiscovery _
  refine ⟨?_, hsorted, rfl, ?_, rfl, ?_⟩
  · have hperm := List.perm_insertionSort byDiscovery
      (db.files.filter (fun f => f.hash_sha256 == some h))
    have hlen : (groupFiles db h).length =
        (db.files.filter (fun f => f.hash_sha256 == some h)).length := hperm.length_eq
    have hmono : ((dupEligible db).filter (fun f => f.hash_sha256 == some h)).length ≤
        (db.files.filter (fun f => f.hash_sha256 == some h)).length := by
      rw [dupEligible, List.filter_filter]
      refine List.Sublist.length_le (List.monotone_filter_right _ ?_)
      intro a ha
      exact ((Bool.and_eq_true _ _).mp ha).1
    show 2 ≤ (groupFiles db h).length
    omega
  · intro f hf f0 hf0
    rcases hl : groupFiles db h with _ | ⟨a, t⟩
    · rw [hl] at hf0
      simp at hf0
    · rw [hl] at hf0
      have ha : a = f0 := by simpa using hf0
      rw [hl] at hsorted hf
      rcases List.mem_cons.mp hf with rfl | hft
      · rw [← ha]
      · exact ha ▸ (List.sorted_cons.mp hsorted).1 f hft
  · intro f hf
    have hmem : f ∈ db.files.filter (fun f => f.hash_sha256 == some h) :=
      (List.mem_insertionSort byDiscovery).mp hf
    exact eq_of_beq (List.mem_filter.mp hmem).2

/-- C4 witness: the group spec applied to the concrete group of c4db. -/
theorem findAllDuplicateGroups_groups_spec_witness :
    2 ≤ c4group.files.length ∧ c4group.original = c4group.files.head? :=
  have hspec := findAllDuplicateGroups_groups_spec c4db c4group (by decide)
  ⟨hspec.1, hspec.2.2.1⟩

/-- Helper: a batch-revert fold processes every entry, adding exactly one
to reverted, failed or skipped per entry. -/
theorem revertFold_counts (hashFn : String → String) :
    ∀ (ops : List Operation) (acc : Sys × BatchRevertResult),
      ((ops.foldl (revertBatchStep hashFn) acc).2.reverted +
          (ops.foldl (revertBatchStep hashFn) acc).2.failed +
          (ops.foldl (revertBatchStep hashFn) acc).2.skipped) =
        acc.2.reverted + acc.2.failed + acc.2.skipped + ops.length := by
  intro ops
  induction ops with
  | nil => intro acc; simp
  | cons op rest ih =>
    intro acc
    rw [List.foldl_cons, ih (revertBatchStep hashFn acc op)]
    have hstep : (revertBatchStep hashFn acc op).2.reverted +
        (revertBatchStep hashFn acc op).2.failed +
        (revertBatchStep hashFn acc op).2.skipped =
        acc.2.reverted + acc.2.failed + acc.2.skipped + 1 := by
      cases hro : revertOperation hashFn acc.1 op with
      | ok pr => simp [revertBatchStep, hro]; omega
      | error msg =>
        by_cases hm : msg = "Operation already reverted"
        · simp [revertBatchStep, hro, hm]; omega
        · simp [revertBatchStep, hro, hm]; omega
    rw [hstep]
    simp only [List.length_cons]
    omega

/-- Helper: a batch-revert fold never changes the totalOperations field. -/
theorem revertFold_total (hashFn : String → String) :
    ∀ (ops : List Operation) (acc : Sys × BatchRevertResult),
      (ops.foldl (revertBatchStep hashFn) acc).2.totalOperations =
        acc.2.totalOperations := by
  intro ops
  induction ops with
  | nil => intro acc; rfl
  | cons op rest ih =>
    intro acc
    rw [List.foldl_cons, ih (revertBatchStep hashFn acc op)]
    cases hro : revertOperation hashFn acc.1 op with
    | ok pr => simp [revertBatchStep, hro]
    | error msg =>
      by_cases hm : msg = "Operation already reverted"
      · simp [revertBatchStep, hro, hm]
      · simp [revertBatchStep, hro, hm]

/-- C3 amended: revertBatch selects exactly the completed move entries of
the batch newest-first and processes every one of them independently
(the counters sum to the selection size, so no per-entry failure aborts
the batch); its "already reverted" branch counts as skipped, but the
claim's re-runnability fails: once the entries have been reverted the
status = completed selection is empty and revertBatch raises (No
revertible operations found in batch) instead of reporting them as
skipped. -/
theorem revertBatch_batch_semantics (hashFn : String → String) (st : Sys) (batchId : String) :
    (selectBatchMoves st.db batchId = [] →
      revertBatch hashFn st batchId =
        Except.error "No revertible operations found in batch") ∧
    (∀ op ∈ selectBatchMoves st.db batchId,
      op.operation_type = "move" ∧ op.status = "completed" ∧ op.batch_id = batchId) ∧
    List.Sorted byNewest (selectBatchMoves st.db batchId) ∧
    (selectBatchMoves st.db batchId).Perm
      (st.db.operations.filter (fun o =>
        o.batch_id == batchId && o.operation_type == "move" && o.status == "completed")) ∧
    (selectBatchMoves st.db batchId ≠ [] →
      ∃ st1 r, revertBatch hashFn st batchId = Except.ok (st1, r) ∧
        r.totalOperations = (selectBatchMoves st.db batchId).length ∧
        r.reverted + r.failed + r.skipped = r.totalOperations) := by
  refine ⟨?_, ?_, ?_, ?_, ?_⟩
  · intro he
    rw [revertBatch]
    simp [he]
  · intro op hop
    have hmem : op ∈ st.db.operations.filter (fun o =>
        o.batch_id == batchId && o.operation_type == "move" && o.status == "completed") :=
      (List.mem_insertionSort byNewest).mp hop
    have hcond := (List.mem_filter.mp hmem).2
    have h1 := ((Bool.and_eq_true _ _).mp hcond).1
    have h2 := ((Bool.and_eq_true _ _).mp hcond).2
    have h11 := ((Bool.and_eq_true _ _).mp h1).1
    have h12 := ((Bool.and_eq_true _ _).mp h1).2
    exact ⟨eq_of_beq h12, eq_of_beq h2, eq_of_beq h11⟩
  · exact List.sorted_insertionSort byNewest _
  · exact List.perm_insertionSort byNewest _
  · intro hne
    have hlen : ¬ (selectBatchMoves st.db batchId).length = 0 := by
      simpa [List.length_eq_zero] using hne
    have hrb : revertBatch hashFn st batchId =
        Except.ok ((selectBatchMoves st.db batchId).foldl (revertBatchStep hashFn)
          (st, { batchId := batchId
                 totalOperations := (selectBatchMoves st.db batchId).length
                 reverted := 0
                 failed := 0
                 skipped := 0
                 errors := [] })) := by
      rw [revertBatch, if_neg hlen]
    exact ⟨_, _, by rw [hrb], by rw [revertFold_total], by
      rw [revertFold_counts, revertFold_total]; simp⟩

/-- C3 witness: the amended batch semantics applied at the one-move world
c3st, where the selection is nonempty. -/
theorem revertBatch_batch_semantics_witness :
    ∃ st1 r, revertBatch hashFn0 c3st "b" = Except.ok (st1, r) ∧
      r.totalOperations = (selectBatchMoves c3st.db "b").length ∧
      r.reverted + r.failed + r.skipped = r.totalOperations :=
  (revertBatch_batch_semantics hashFn0 c3st "b").2.2.2.2 (by decide)

/-- C7 amended: no enumeration failure is fatal to a scan, the root's
included: the scan always ends with status completed, and a root whose
enumeration fails contributes a directory_access ErrorRecord, zero
counted files and no new FileRecords. -/
theorem scanDirectory_failure_semantics (hashFn : String → String) (db : DB)
    (src : String) (recursive : Bool) (tree : FTree) :
    (scanDirectory hashFn db src recursive tree).2.status = "completed" ∧
    (∀ msg, tree = FTree.errDir msg →
      (scanDirectory hashFn db src recursive tree).1.errors =
        db.errors ++ [{ file_id := none
                        file_path := src
                        error_type := "directory_access"
                        error_message := msg }] ∧
      (scanDirectory hashFn db src recursive tree).2.newFiles = 0 ∧
      (scanDirectory hashFn db src recursive tree).2.totalFiles = 0 ∧
      (scanDirectory hashFn db src recursive tree).1.files = db.files) := by
  constructor
  · rfl
  · intro msg htree
    subst htree
    exact ⟨rfl, rfl, rfl, rfl⟩

/-- C7 witness: the failure semantics applied at a concrete failing
root. -/
theorem scanDirectory_failure_semantics_witness :
    (scanDirectory hashFn0 dbEmpty "/r" true (FTree.errDir "EIO")).1.errors =
      dbEmpty.errors ++ [{ file_id := none
                           file_path := "/r"
                           error_type := "directory_access"
                           error_message := "EIO" }] :=
  ((scanDirectory_failure_semantics hashFn0 dbEmpty "/r" true
    (FTree.errDir "EIO")).2 "EIO" rfl).1

/-- C2: revertOperation fails with a distinct error message for each
violated precondition, checked in source order (entry kind not move;
entry already reverted; associated file row missing; file missing at the
ledger destination; live hash differing from the recorded verification
fingerprint; original path occupied), and every failure is one of those
errors. Each throw happens before the rename and before any record or
ledger write, which the embedding reflects by returning no new state on
error: a failing revert leaves the world unchanged. -/
theorem revertOperation_preconditions (hashFn : String → String) (st : Sys) (op : Operation) :
    (op.operation_type ≠ "move" →
      revertOperation hashFn st op =
        Except.error "Only move operations can be reverted") ∧
    (op.operation_type = "move" → op.status = "reverted" →
      revertOperation hashFn st op = Except.error "Operation already reverted") ∧
    (∀ f, op.operation_type = "move" → op.status ≠ "reverted" →
      getFileById st.db op.file_id = some f →
      fsGet st.fs (op.destination_path.getD "") = none →
      revertOperation hashFn st op =
        Except.error "File no longer exists at destination path") ∧
    (∀ f content, op.operation_type = "move" → op.status ≠ "reverted" →
      getFileById st.db op.file_id = some f →
      fsGet st.fs (op.destination_path.getD "") = some content →
      optTruthy op.hash_used = true → hashFn content ≠ op.hash_used.getD "" →
      revertOperation hashFn st op =
        Except.error "File has been modified since it was moved") ∧
    (∀ f content, op.operation_type = "move" → op.status ≠ "reverted" →
      getFileById st.db op.file_id = some f →
      fsGet st.fs (op.destination_path.getD "") = some content →
      (optTruthy op.hash_used && (hashFn content != op.hash_used.getD "")) = false →
      fsExists st.fs op.source_path = true →
      revertOperation hashFn st op =
        Except.error "A file already exists at the original location") ∧
    (∀ msg, revertOperation hashFn st op = Except.error msg →
      msg ∈ ["Only move operations can be reverted",
             "Operation already reverted",
             "Associated file not found",
             "File no longer exists at destination path",
             "File has been modified since it was moved",
             "A file already exists at the original location"]) := by
  refine ⟨?_, ?_, ?_, ?_, ?_, ?_⟩
  · intro h1
    simp [revertOperation, h1]
  · intro h1 h2
    simp [revertOperation, h1, h2]
  · intro f h1 h2 hf hfs
    simp [revertOperation, h1, h2, hf, hfs]
  · intro f content h1 h2 hf hfs h5 h6
    have hb : (optTruthy op.hash_used && (hashFn content != op.hash_used.getD "")) = true := by
      simp [h5, h6]
    simp [revertOperation, h1, h2, hf, hfs, hb]
  · intro f content h1 h2 hf hfs hb hex
    simp [revertOperation, h1, h2, hf, hfs, hb, hex]
  · intro msg hmsg
    rw [revertOperation] at hmsg
    by_cases h1 : op.operation_type ≠ "move"
    · rw [if_pos h1] at hmsg
      injection hmsg with h
      subst h
      simp
    · rw [if_neg h1] at hmsg
      by_cases h2 : op.status = "reverted"
      · rw [if_pos h2] at hmsg
        injection hmsg with h
        subst h
        simp
      · rw [if_neg h2] at hmsg
        cases hgf : getFileById st.db op.file_id with
        | none =>
          rw [hgf] at hmsg
          injection hmsg with h
          subst h
          simp
        | some f =>
          rw [hgf] at hmsg
          cases hfs : fsGet st.fs (op.destination_path.getD "") with
          | none =>
            simp only [hfs] at hmsg
            injection hmsg with h
            subst h
            simp
          | some content =>
            simp only [hfs] at hmsg
            by_cases hb : (optTruthy op.hash_used &&
                (hashFn content != op.hash_used.getD "")) = true
            · rw [if_pos hb] at hmsg
              injection hmsg with h
              subst h
              simp
            · rw [if_neg hb] at hmsg
              by_cases hex : fsExists st.fs op.source_path = true
              · rw [if_pos hex] at hmsg
                injection hmsg with h
                subst h
                simp
              · rw [if_neg hex] at hmsg
                exact absurd hmsg (by simp)

/-- C2 witness: two of the preconditions exercised at concrete entries
(a non-move entry; an already-reverted move entry). -/
theorem revertOperation_preconditions_witness :
    revertOperation hashFn0 ⟨dbEmpty, []⟩ exOpScan =
      Except.error "Only move operations can be reverted" ∧
    revertOperation hashFn0 ⟨dbEmpty, []⟩ exOpReverted =
      Except.error "Operation already reverted" :=
  ⟨(revertOperation_preconditions hashFn0 ⟨dbEmpty, []⟩ exOpScan).1 (by decide),
   (revertOperation_preconditions hashFn0 ⟨dbEmpty, []⟩ exOpReverted).2.1
     (by decide) (by decide)⟩

/-- C3 counterexample: after a fully successful batch revert, running
revertBatch again on the same batch id raises (No revertible operations
found in batch) instead of completing with the entries counted as
skipped: reverted entries no longer satisfy the status = completed
selection. -/
theorem revertBatch_rerun_counterexample :
    revertBatch hashFn0 c3st "b" =
      Except.ok (c3st1,
        { batchId := "b", totalOperations := 1, reverted := 1, failed := 0,
          skipped := 0, errors := [] }) ∧
    revertBatch hashFn0 c3st1 "b" =
      Except.error "No revertible operations found in batch" := by
  exact ⟨rfl, rfl⟩

/-- C7 counterexample: a failure to enumerate the root path is not fatal:
the scan completes with status completed (not error), recording a
directory_access ErrorRecord for the root. -/
theorem scanDirectory_root_failure_counterexample :
    (scanDirectory hashFn0 dbEmpty "/root" true (FTree.errDir "EACCES")).2.status =
      "completed" ∧
    (scanDirectory hashFn0 dbEmpty "/root" true (FTree.errDir "EACCES")).2.status ≠
      "error" ∧
    (scanDirectory hashFn0 dbEmpty "/root" true (FTree.errDir "EACCES")).1.errors =
      [{ file_id := none, file_path := "/root", error_type := "directory_access",
         error_message := "EACCES" }] := by
  exact ⟨rfl, by decide, rfl⟩

/-- Helper: one collision-loop round on an occupied candidate below the
switch threshold advances to the next numbered candidate. -/
theorem handleCollisionLoop_step (fs : FS) (dir base ext : String) (hash : Option String)
    (fuel c : Nat) (fp : String) (hex : fsExists fs fp = true) (hc : ¬ 100 < c + 1) :
    handleCollisionLoop fs dir base ext hash (fuel + 1) c fp =
      handleCollisionLoop fs dir base ext hash fuel (c + 1) (numberCand dir base ext c) := by
  simp [handleCollisionLoop, hex, hc]

/-- Helper: the collision loop returns a free candidate immediately. -/
theorem handleCollisionLoop_stop (fs : FS) (dir base ext : String) (hash : Option String)
    (fuel c : Nat) (fp : String) (hex : fsExists fs fp = false) :
    handleCollisionLoop fs dir base ext hash (fuel + 1) c fp = fp := by
  simp [handleCollisionLoop, hex]

/-- Helper: with a truthy hash the collision loop settles within the
switch bound: its value does not depend on the fuel once the fuel covers
the rounds left before the counter passes 100. -/
theorem handleCollisionLoop_fuel_eq (fs : FS) (dir base ext : String) (hash : Option String)
    (htr : optTruthy hash = true) :
    ∀ fuel1 fuel2 c fp, c ≤ 100 → 101 ≤ c + fuel1 → 101 ≤ c + fuel2 →
      handleCollisionLoop fs dir base ext hash fuel1 c fp =
        handleCollisionLoop fs dir base ext hash fuel2 c fp := by
  intro fuel1
  induction fuel1 with
  | zero => intro fuel2 c fp hc h1 h2; omega
  | succ n ih =>
    intro fuel2 c fp hc h1 h2
    cases fuel2 with
    | zero => omega
    | succ m =>
      by_cases hex : fsExists fs fp = true
      · by_cases h100 : 100 < c + 1
        · have hceq : c = 100 := by omega
          subst hceq
          simp [handleCollisionLoop, hex, htr]
        · rw [handleCollisionLoop_step fs dir base ext hash n c fp hex h100,
            handleCollisionLoop_step fs dir base ext hash m c fp hex h100]
          exact ih m (c + 1) (numberCand dir base ext c) (by omega) (by omega) (by omega)
      · have hex2 : fsExists fs fp = false := by
          simpa using hex
        rw [handleCollisionLoop_stop fs dir base ext hash n c fp hex2,
          handleCollisionLoop_stop fs dir base ext hash m c fp hex2]

/-- Helper: with a truthy hash and covering fuel the collision loop
returns either a path free on the filesystem or the hash-suffix
fallback. -/
theorem handleCollisionLoop_result (fs : FS) (dir base ext : String) (hash : Option String)
    (htr : optTruthy hash = true) :
    ∀ fuel c fp, c ≤ 100 → 101 ≤ c + fuel →
      fsExists fs (handleCollisionLoop fs dir base ext hash fuel c fp) = false ∨
        handleCollisionLoop fs dir base ext hash fuel c fp = hashCand dir base ext hash := by
  intro fuel
  induction fuel with
  | zero => intro c fp hc h1; omega
  | succ n ih =>
    intro c fp hc h1
    by_cases hex : fsExists fs fp = true
    · by_cases h100 : 100 < c + 1
      · have hceq : c = 100 := by omega
        subst hceq
        right
        simp [handleCollisionLoop, hex, htr]
      · rw [handleCollisionLoop_step fs dir base ext hash n c fp hex h100]
        exact ih (c + 1) (numberCand dir base ext c) (by omega) (by omega)
    · have hex2 : fsExists fs fp = false := by simpa using hex
      rw [handleCollisionLoop_stop fs dir base ext hash n c fp hex2]
      exact Or.inl hex2

/-- Helper: an 8-character hash suffix can never produce the same path as
a numeric disambiguator up to 100 (their lengths differ). -/
theorem hashCand_ne_numberCand (dir base ext h : String) (hlen : 8 ≤ h.length) :
    ∀ n, n ≤ 100 → hashCand dir base ext (some h) ≠ numberCand dir base ext n := by
  intro n hn heq
  have hrep : (Nat.repr n).length ≤ 3 := by
    have hall : ∀ k : Fin 101, (Nat.repr k.val).length ≤ 3 := by decide
    exact hall ⟨n, by omega⟩
  have htake : (strTake h 8).length = 8 := by
    show (h.data.take 8).length = 8
    rw [List.length_take]
    have h8 : 8 ≤ h.data.length := hlen
    omega
  have hl := congrArg String.length heq
  simp only [hashCand, numberCand, pathJoin, Option.getD_some, String.length_append] at hl
  rw [htake] at hl
  have e1 : (" (" : String).length = 2 := rfl
  have e2 : (")" : String).length = 1 := rfl
  rw [e1, e2] at hl
  omega

/-- C6: collision resolution terminates when the colliding file has a
fingerprint: the loop appends numeric disambiguators (1), (2), ... before
the extension while the candidate is occupied, its value is independent
of any fuel covering the 100-round switch bound, and the returned path is
either free on the filesystem (hence distinct from every occupied
candidate it examined) or the 8-character fingerprint-suffix path, which
differs from every numeric candidate. -/
theorem handleCollision_terminates (fs : FS) (destPath : String) (h : String)
    (hne : h ≠ "") (hlen : 8 ≤ h.length) :
    (∀ fuel1 fuel2, 101 ≤ fuel1 → 101 ≤ fuel2 →
      handleCollision fs destPath (some h) fuel1 =
        handleCollision fs destPath (some h) fuel2) ∧
    (fsExists fs (handleCollision fs destPath (some h) 101) = false ∨
      (handleCollision fs destPath (some h) 101 =
          hashCand (pathDirname destPath)
            (pathBasenameStrip destPath (pathExtname destPath)) (pathExtname destPath)
            (some h) ∧
        ∀ n, n ≤ 100 →
          handleCollision fs destPath (some h) 101 ≠
            numberCand (pathDirname destPath)
              (pathBasenameStrip destPath (pathExtname destPath))
              (pathExtname destPath) n)) ∧
    (fsExists fs destPath = true →
      fsExists fs (numberCand (pathDirname destPath)
        (pathBasenameStrip destPath (pathExtname destPath)) (pathExtname destPath) 1) =
          false →
      handleCollision fs destPath (some h) 101 =
        numberCand (pathDirname destPath)
          (pathBasenameStrip destPath (pathExtname destPath)) (pathExtname destPath) 1) := by
  have htr : optTruthy (some h) = true := by simp [optTruthy, hne]
  refine ⟨?_, ?_, ?_⟩
  · intro fuel1 fuel2 h1 h2
    simp only [handleCollision]
    exact handleCollisionLoop_fuel_eq fs _ _ _ (some h) htr fuel1 fuel2 1 destPath
      (by omega) (by omega) (by omega)
  · simp only [handleCollision]
    rcases handleCollisionLoop_result fs (pathDirname destPath)
        (pathBasenameStrip destPath (pathExtname destPath)) (pathExtname destPath)
        (some h) htr 101 1 destPath (by omega) (by omega) with hfree | hhash
    · exact Or.inl hfree
    · refine Or.inr ⟨hhash, ?_⟩
      intro n hn
      rw [hhash]
      exact hashCand_ne_numberCand _ _ _ h hlen n hn
  · intro hex1 hex2
    simp only [handleCollision]
    rw [show (101 : Nat) = 100 + 1 from rfl,
      handleCollisionLoop_step fs _ _ _ (some h) 100 1 destPath hex1 (by omega),
      show (100 : Nat) = 99 + 1 from rfl,
      handleCollisionLoop_stop fs _ _ _ (some h) 99 2 _ hex2]

/-- C6 witness: the termination theorem applied at a one-file filesystem
where the proposed destination is occupied and the first numbered
candidate is free. -/
theorem handleCollision_terminates_witness :
    handleCollision [("/d/a.txt", "x")] "/d/a.txt" (some "aaaaaaaaaaaaaaaa") 101 =
      numberCand (pathDirname "/d/a.txt")
        (pathBasenameStrip "/d/a.txt" (pathExtname "/d/a.txt"))
        (pathExtname "/d/a.txt") 1 :=
  (handleCollision_terminates [("/d/a.txt", "x")] "/d/a.txt" "aaaaaaaaaaaaaaaa"
    (by decide) (by decide)).2.2 (by decide) (by decide)

/-- Helper: a record with the queried original path exists iff
getFileByPath finds one. -/
theorem getFileByPath_isSome_iff (db : DB) (p : String) :
    (getFileByPath db p).isSome = true ↔ HasPath db p := by
  simp [getFileByPath, HasPath, List.find?_isSome]

/-- Helper: processFile either leaves the files table and the newFiles
counter unchanged (skip or per-file error; a readable file is only
skipped when its path already has a record), or inserts exactly one new
record at the processed path when none exists and the file is readable. -/
theorem processFile_db_cases (hashFn : String → String) (s : ScanSt) (p : String)
    (c : Option String) :
    ((processFile hashFn s p c).db.files = s.db.files ∧
      (processFile hashFn s p c).stat.newFiles = s.stat.newFiles ∧
      (c.isSome = true → (getFileByPath s.db p).isSome = true)) ∨
    (getFileByPath s.db p = none ∧ c.isSome = true ∧
      ∃ r, r.original_path = p ∧
        (processFile hashFn s p c).db.files = s.db.files ++ [r] ∧
        (processFile hashFn s p c).stat.newFiles = s.stat.newFiles + 1) := by
  cases hg : getFileByPath s.db p with
  | some f =>
    left
    refine ⟨?_, ?_, fun _ => rfl⟩ <;> simp [processFile, hg]
  | none =>
    cases c with
    | none =>
      left
      refine ⟨?_, ?_, fun hc => by simp at hc⟩ <;> simp [processFile, hg, insertError]
    | some cc =>
      right
      refine ⟨rfl, rfl, ?_⟩
      exact ⟨scanRecord hashFn s.db p cc, rfl,
        by simp [processFile, hg], by simp [processFile, hg]⟩

/-- Helper: processFile on a readable file guarantees a record at that
path afterwards. -/
theorem processFile_hasPath_self (hashFn : String → String) (s : ScanSt) (p : String)
    (cc : String) :
    HasPath (processFile hashFn s p (some cc)).db p := by
  rcases processFile_db_cases hashFn s p (some cc) with ⟨hf, _, hsk⟩ | ⟨_, _, r, hr, hf, _⟩
  · have hs : HasPath s.db p := (getFileByPath_isSome_iff s.db p).mp (hsk rfl)
    obtain ⟨f, hmem, he⟩ := hs
    exact ⟨f, by rw [hf]; exact hmem, he⟩
  · exact ⟨r, by rw [hf]; exact List.mem_append_right _ (List.mem_singleton.mpr rfl), hr⟩

/-- Helper: a pass-2 entry fold never loses a catalogued path. -/
theorem foldEntries_mono (hashFn : String → String) (dirPath : String) :
    ∀ (es : List FEnt) (s : ScanSt) (p : String),
      HasPath s.db p → HasPath (es.foldl (processEntry hashFn dirPath) s).db p := by
  intro es
  induction es with
  | nil => intro s p h; exact h
  | cons e rest ih =>
    intro s p h
    rw [List.foldl_cons]
    refine ih _ p ?_
    rw [processEntry]
    by_cases hsk : !shouldSkipFile e.name
    · rw [if_pos hsk]
      rcases processFile_db_cases hashFn s (pathJoin dirPath e.name) e.content with
        ⟨hf, _, _⟩ | ⟨_, _, r, _, hf, _⟩
      · obtain ⟨f, hmem, he⟩ := h
        exact ⟨f, by rw [hf]; exact hmem, he⟩
      · obtain ⟨f, hmem, he⟩ := h
        exact ⟨f, by rw [hf]; exact List.mem_append_left _ hmem, he⟩
    · rw [if_neg hsk]
      exact h

/-- Helper: after a pass-2 entry fold every eligible readable entry of
the level has a record at its path. -/
theorem foldEntries_cover (hashFn : String → String) (dirPath : String) :
    ∀ (es : List FEnt) (s : ScanSt) (e : FEnt), e ∈ es →
      (!shouldSkipFile e.name && e.content.isSome) = true →
      HasPath (es.foldl (processEntry hashFn dirPath) s).db (pathJoin dirPath e.name) := by
  intro es
  induction es with
  | nil => intro s e he _; simp at he
  | cons e0 rest ih =>
    intro s e he hcond
    rw [List.foldl_cons]
    rcases List.mem_cons.mp he with rfl | hrest
    · have h1 := ((Bool.and_eq_true _ _).mp hcond).1
      have h2 := ((Bool.and_eq_true _ _).mp hcond).2
      obtain ⟨cc, hcc⟩ := Option.isSome_iff_exists.mp h2
      refine foldEntries_mono hashFn dirPath rest _ _ ?_
      rw [processEntry, if_pos h1, hcc]
      exact processFile_hasPath_self hashFn s (pathJoin dirPath e.name) cc
    · exact ih _ e hrest hcond

/-- Helper: when every eligible readable entry of the level already has a
record, the entry fold changes neither the files table nor the newFiles
counter. -/
theorem foldEntries_nochange (hashFn : String → String) (dirPath : String) :
    ∀ (es : List FEnt) (s : ScanSt),
      (∀ e ∈ es, (!shouldSkipFile e.name && e.content.isSome) = true →
        HasPath s.db (pathJoin dirPath e.name)) →
      (es.foldl (processEntry hashFn dirPath) s).db.files = s.db.files ∧
        (es.foldl (processEntry hashFn dirPath) s).stat.newFiles = s.stat.newFiles := by
  intro es
  induction es with
  | nil => intro s _; exact ⟨rfl, rfl⟩
  | cons e rest ih =>
    intro s hcov
    rw [List.foldl_cons]
    have hstep : (processEntry hashFn dirPath s e).db.files = s.db.files ∧
        (processEntry hashFn dirPath s e).stat.newFiles = s.stat.newFiles := by
      rw [processEntry]
      by_cases hsk : !shouldSkipFile e.name
      · rw [if_pos hsk]
        rcases processFile_db_cases hashFn s (pathJoin dirPath e.name) e.content with
          ⟨hf, hn, _⟩ | ⟨hg, hcs, r, _, _, _⟩
        · exact ⟨hf, hn⟩
        · have hcond : (!shouldSkipFile e.name && e.content.isSome) = true := by
            simp [hsk, hcs]
          have := (getFileByPath_isSome_iff s.db (pathJoin dirPath e.name)).mpr
            (hcov e (List.mem_cons_self e rest) hcond)
          rw [hg] at this
          simp at this
      · rw [if_neg hsk]
        exact ⟨rfl, rfl⟩
    have hrest := ih (processEntry hashFn dirPath s e) (fun e2 he2 hc2 => by
      obtain ⟨f, hmem, he⟩ := hcov e2 (List.mem_cons_of_mem e he2) hc2
      exact ⟨f, by rw [hstep.1]; exact hmem, he⟩)
    exact ⟨hrest.1.trans hstep.1, hrest.2.trans hstep.2⟩

/-- Helper: the entry fold preserves uniqueness of original paths (a
record is only inserted when its path has none). -/
theorem foldEntries_nodup (hashFn : String → String) (dirPath : String) :
    ∀ (es : List FEnt) (s : ScanSt),
      (s.db.files.map (fun f => f.original_path)).Nodup →
      (((es.foldl (processEntry hashFn dirPath) s).db.files.map
        (fun f => f.original_path))).Nodup := by
  intro es
  induction es with
  | nil => intro s h; exact h
  | cons e rest ih =>
    intro s h
    rw [List.foldl_cons]
    refine ih _ ?_
    rw [processEntry]
    by_cases hsk : !shouldSkipFile e.name
    · rw [if_pos hsk]
      rcases processFile_db_cases hashFn s (pathJoin dirPath e.name) e.content with
        ⟨hf, _, _⟩ | ⟨hg, _, r, hr, hf, _⟩
      · rw [hf]; exact h
      · rw [hf, List.map_append]
        have hnot : r.original_path ∉ s.db.files.map (fun f => f.original_path) := by
          intro hmem
        -- a record with this path would contradict the none lookup
          obtain ⟨f, hfm, hfe⟩ := List.mem_map.mp hmem
          have : HasPath s.db (pathJoin dirPath e.name) := ⟨f, hfm, by rw [hfe, hr]⟩
          have := (getFileByPath_isSome_iff s.db (pathJoin dirPath e.name)).mpr this
          rw [hg] at this
          simp at this
        simp [List.nodup_append, h, hnot]
    · rw [if_neg hsk]
      exact h

mutual
/-- Helper: pass 2 never loses a catalogued path (directory case). -/
theorem processDirectory_mono : ∀ (t : FTree) (hashFn : String → String) (s : ScanSt)
    (dirPath : String) (recursive : Bool) (p : String),
    HasPath s.db p → HasPath (processDirectory hashFn s dirPath recursive t).db p
  | FTree.node files subdirs => by
    intro hashFn s dirPath recursive p h
    simp only [processDirectory]
    have h1 := foldEntries_mono hashFn dirPath files s p h
    cases recursive with
    | false => simpa using h1
    | true =>
      simp only [if_true]
      exact processForest_mono subdirs hashFn _ dirPath true p h1
  | FTree.errDir msg => by
    intro hashFn s dirPath recursive p h
    simp only [processDirectory]
    obtain ⟨f, hm, he⟩ := h
    exact ⟨f, hm, he⟩

/-- Helper: pass 2 never loses a catalogued path (forest case). -/
theorem processForest_mono : ∀ (fo : FForest) (hashFn : String → String) (s : ScanSt)
    (dirPath : String) (recursive : Bool) (p : String),
    HasPath s.db p → HasPath (processForest hashFn s dirPath recursive fo).db p
  | FForest.nil => by
    intro hashFn s dirPath recursive p h
    simpa only [processForest] using h
  | FForest.cons name t rest => by
    intro hashFn s dirPath recursive p h
    simp only [processForest]
    refine processForest_mono rest hashFn _ dirPath recursive p ?_
    by_cases hsk : (!shouldSkipDirectory name) = true
    · rw [if_pos hsk]
      exact processDirectory_mono t hashFn s (pathJoin dirPath name) recursive p h
    · rw [if_neg hsk]
      exact h
end

mutual
/-- Helper: after pass 2 every visited path has a record (directory
case). -/
theorem processDirectory_cover : ∀ (t : FTree) (hashFn : String → String) (s : ScanSt)
    (dirPath : String) (recursive : Bool) (p : String),
    p ∈ visitPaths dirPath recursive t →
    HasPath (processDirectory hashFn s dirPath recursive t).db p
  | FTree.node files subdirs => by
    intro hashFn s dirPath recursive p hp
    simp only [visitPaths] at hp
    simp only [processDirectory]
    rcases List.mem_append.mp hp with hfile | hsub
    · obtain ⟨e, he, rfl⟩ := List.mem_map.mp hfile
      have h1 : HasPath (files.foldl (processEntry hashFn dirPath) s).db
          (pathJoin dirPath e.name) :=
        foldEntries_cover hashFn dirPath files s e (List.mem_filter.mp he).1
          (List.mem_filter.mp he).2
      cases recursive with
      | false => simpa using h1
      | true =>
        simp only [if_true]
        exact processForest_mono subdirs hashFn _ dirPath true _ h1
    · cases recursive with
      | false => simp at hsub
      | true =>
        simp only [if_true] at hsub ⊢
        exact processForest_cover subdirs hashFn _ dirPath true p hsub
  | FTree.errDir msg => by
    intro hashFn s dirPath recursive p hp
    simp [visitPaths] at hp

/-- Helper: after pass 2 every visited path has a record (forest case). -/
theorem processForest_cover : ∀ (fo : FForest) (hashFn : String → String) (s : ScanSt)
    (dirPath : String) (recursive : Bool) (p : String),
    p ∈ visitPathsForest dirPath recursive fo →
    HasPath (processForest hashFn s dirPath recursive fo).db p
  | FForest.nil => by
    intro hashFn s dirPath recursive p hp
    simp [visitPathsForest] at hp
  | FForest.cons name t rest => by
    intro hashFn s dirPath recursive p hp
    simp only [visitPathsForest] at hp
    simp only [processForest]
    rcases List.mem_append.mp hp with hleft | hright
    · by_cases hsk : (!shouldSkipDirectory name) = true
      · rw [if_pos hsk] at hleft ⊢
        exact processForest_mono rest hashFn _ dirPath recursive p
          (processDirectory_cover t hashFn s (pathJoin dirPath name) recursive p hleft)
      · rw [if_neg hsk] at hleft
        simp at hleft
    · exact processForest_cover rest hashFn _ dirPath recursive p hright
end

mutual
/-- Helper: when every visited path already has a record, pass 2 changes
neither the files table nor the newFiles counter (directory case). -/
theorem processDirectory_nochange : ∀ (t : FTree) (hashFn : String → String) (s : ScanSt)
    (dirPath : String) (recursive : Bool),
    (∀ p ∈ visitPaths dirPath recursive t, HasPath s.db p) →
    (processDirectory hashFn s dirPath recursive t).db.files = s.db.files ∧
      (processDirectory hashFn s dirPath recursive t).stat.newFiles = s.stat.newFiles
  | FTree.node files subdirs => by
    intro hashFn s dirPath recursive hcov
    simp only [visitPaths] at hcov
    simp only [processDirectory]
    have hfold := foldEntries_nochange hashFn dirPath files s (fun e he hc =>
      hcov _ (List.mem_append_left _
        (List.mem_map_of_mem _ (List.mem_filter.mpr ⟨he, hc⟩))))
    cases recursive with
    | false => simpa using hfold
    | true =>
      simp only [if_true]
      have hforest := processForest_nochange subdirs hashFn
        (files.foldl (processEntry hashFn dirPath) s) dirPath true (fun p hp => by
          obtain ⟨f, hm, he⟩ := hcov p (List.mem_append_right _ (by simpa using hp))
          exact ⟨f, by rw [hfold.1]; exact hm, he⟩)
      exact ⟨hforest.1.trans hfold.1, hforest.2.trans hfold.2⟩
  | FTree.errDir msg => by
    intro hashFn s dirPath recursive hcov
    exact ⟨rfl, rfl⟩

/-- Helper: when every visited path already has a record, pass 2 changes
neither the files table nor the newFiles counter (forest case). -/
theorem processForest_nochange : ∀ (fo : FForest) (hashFn : String → String) (s : ScanSt)
    (dirPath : String) (recursive : Bool),
    (∀ p ∈ visitPathsForest dirPath recursive fo, HasPath s.db p) →
    (processForest hashFn s dirPath recursive fo).db.files = s.db.files ∧
      (processForest hashFn s dirPath recursive fo).stat.newFiles = s.stat.newFiles
  | FForest.nil => by
    intro hashFn s dirPath recursive hcov
    exact ⟨rfl, rfl⟩
  | FForest.cons name t rest => by
    intro hashFn s dirPath recursive hcov
    simp only [visitPathsForest] at hcov
    simp only [processForest]
    by_cases hsk : (!shouldSkipDirectory name) = true
    · have hdir := processDirectory_nochange t hashFn s (pathJoin dirPath name) recursive
        (fun p hp => hcov p (List.mem_append_left _ (by rw [if_pos hsk]; exact hp)))
      rw [if_pos hsk]
      have hrest := processForest_nochange rest hashFn
        (processDirectory hashFn s (pathJoin dirPath name) recursive t) dirPath recursive
        (fun p hp => by
          obtain ⟨f, hm, he⟩ := hcov p (List.mem_append_right _ hp)
          exact ⟨f, by rw [hdir.1]; exact hm, he⟩)
      exact ⟨hrest.1.trans hdir.1, hrest.2.trans hdir.2⟩
    · rw [if_neg hsk]
      exact processForest_nochange rest hashFn s dirPath recursive
        (fun p hp => hcov p (List.mem_append_right _ hp))
end

mutual
/-- Helper: pass 2 preserves uniqueness of original paths (directory
case). -/
theorem processDirectory_nodup : ∀ (t : FTree) (hashFn : String → String) (s : ScanSt)
    (dirPath : String) (recursive : Bool),
    (s.db.files.map (fun f => f.original_path)).Nodup →
    ((processDirectory hashFn s dirPath recursive t).db.files.map
      (fun f => f.original_path)).Nodup
  | FTree.node files subdirs => by
    intro hashFn s dirPath recursive h
    simp only [processDirectory]
    have h1 := foldEntries_nodup hashFn dirPath files s h
    cases recursive with
    | false => simpa using h1
    | true =>
      simp only [if_true]
      exact processForest_nodup subdirs hashFn _ dirPath true h1
  | FTree.errDir msg => by
    intro hashFn s dirPath recursive h
    exact h

/-- Helper: pass 2 preserves uniqueness of original paths (forest
case). -/
theorem processForest_nodup : ∀ (fo : FForest) (hashFn : String → String) (s : ScanSt)
    (dirPath : String) (recursive : Bool),
    (s.db.files.map (fun f => f.original_path)).Nodup →
    ((processForest hashFn s dirPath recursive fo).db.files.map
      (fun f => f.original_path)).Nodup
  | FForest.nil => by
    intro hashFn s dirPath recursive h
    exact h
  | FForest.cons name t rest => by
    intro hashFn s dirPath recursive h
    simp only [processForest]
    refine processForest_nodup rest hashFn _ dirPath recursive ?_
    by_cases hsk : (!shouldSkipDirectory name) = true
    · rw [if_pos hsk]
      exact processDirectory_nodup t hashFn s (pathJoin dirPath name) recursive h
    · rw [if_neg hsk]
      exact h
end

/-- C9: scanning is idempotent by path identity: with no filesystem
change, a second scanDirectory run inserts nothing (newFiles = 0 and the
files table is unchanged), and uniqueness of original paths is preserved
by both runs, so no two FileRecords ever share an original path. -/
theorem scanDirectory_idempotent (hashFn : String → String) (db : DB) (src : String)
    (recursive : Bool) (tree : FTree)
    (huniq : (db.files.map (fun f => f.original_path)).Nodup) :
    (scanDirectory hashFn (scanDirectory hashFn db src recursive tree).1 src recursive
      tree).2.newFiles = 0 ∧
    ((scanDirectory hashFn db src recursive tree).1.files.map
      (fun f => f.original_path)).Nodup ∧
    ((scanDirectory hashFn (scanDirectory hashFn db src recursive tree).1 src recursive
      tree).1.files.map (fun f => f.original_path)).Nodup ∧
    (scanDirectory hashFn (scanDirectory hashFn db src recursive tree).1 src recursive
      tree).1.files = (scanDirectory hashFn db src recursive tree).1.files := by
  simp only [scanDirectory]
  have hcov : ∀ p ∈ visitPaths src recursive tree,
      HasPath (processDirectory hashFn
        { db := db
          stat :=
            { sourcePath := src
              status := "in_progress"
              totalFiles := countFiles recursive tree
              processedFiles := 0
              newFiles := 0
              skippedFiles := 0
              errorFiles := 0 } } src recursive tree).db p :=
    fun p hp => processDirectory_cover tree hashFn _ src recursive p hp
  have hno := processDirectory_nochange tree hashFn
    { db := (processDirectory hashFn
        { db := db
          stat :=
            { sourcePath := src
              status := "in_progress"
              totalFiles := countFiles recursive tree
              processedFiles := 0
              newFiles := 0
              skippedFiles := 0
              errorFiles := 0 } } src recursive tree).db
      stat :=
        { sourcePath := src
          status := "in_progress"
          totalFiles := countFiles recursive tree
          processedFiles := 0
          newFiles := 0
          skippedFiles := 0
          errorFiles := 0 } } src recursive hcov
  have hd1 := processDirectory_nodup tree hashFn
    { db := db
      stat :=
        { sourcePath := src
          status := "in_progress"
          totalFiles := countFiles recursive tree
          processedFiles := 0
          newFiles := 0
          skippedFiles := 0
          errorFiles := 0 } } src recursive huniq
  refine ⟨hno.2, hd1, ?_, hno.1⟩
  rw [show (((processDirectory hashFn
      { db := (processDirectory hashFn
          { db := db
            stat :=
              { sourcePath := src
                status := "in_progress"
                totalFiles := countFiles recursive tree
                processedFiles := 0
                newFiles := 0
                skippedFiles := 0
                errorFiles := 0 } } src recursive tree).db
        stat :=
          { sourcePath := src
            status := "in_progress"
            totalFiles := countFiles recursive tree
            processedFiles := 0
            newFiles := 0
            skippedFiles := 0
            errorFiles := 0 } } src recursive tree).db.files)) = _ from hno.1]
  exact hd1

/-- C9 witness: idempotence at a concrete two-file tree over an empty
catalog. -/
theorem scanDirectory_idempotent_witness :
    (scanDirectory hashFn0
      (scanDirectory hashFn0 dbEmpty "/s" true
        (FTree.node [⟨"a.txt", some "A"⟩, ⟨"b.txt", some "B"⟩] FForest.nil)).1
      "/s" true
      (FTree.node [⟨"a.txt", some "A"⟩, ⟨"b.txt", some "B"⟩] FForest.nil)).2.newFiles =
      0 :=
  (scanDirectory_idempotent hashFn0 dbEmpty "/s" true
    (FTree.node [⟨"a.txt", some "A"⟩, ⟨"b.txt", some "B"⟩] FForest.nil) (by decide)).1

/-- C8 counterexample: a dry run is not pure: it flips a pending record
with a duplicate at destination to status duplicate, and two pending
files colliding on one destination get the same dry-run decision where
the immediately following real run disambiguates the second. -/
theorem organize_dryRun_purity_counterexample :
    (getFileById c8st.db 2).map (fun f => f.status) = some "pending" ∧
    (getFileById c8dry.db 2).map (fun f => f.status) = some "duplicate" ∧
    moveDecisions c8dry.db "b1" =
      [("move", some "/dest/2015/07/15/p.jpg"), ("move", some "/dest/2015/07/15/p.jpg")] ∧
    moveDecisions (organizeFiles today0 c8dry "/dest" false none "b2").1.db "b2" =
      [("move", some "/dest/2015/07/15/p.jpg"),
       ("move", some "/dest/2015/07/15/p (1).jpg")] := by
  exact ⟨rfl, rfl, rfl, rfl⟩

/-- Helper: a dry-run organizeFile never touches the filesystem, and
either leaves the files table alone or applies the duplicate-marking
update for the processed snapshot record. -/
theorem organizeFile_dry_cases (today : YMD) (st : Sys) (os : OrgStatus)
    (file : FileRecord) (destBase batchId : String) :
    (organizeFile today st os file destBase batchId true).1.fs = st.fs ∧
    ((organizeFile today st os file destBase batchId true).1.db.files = st.db.files ∨
      ∃ u : FileUpdate, u.id = file.id ∧ u.current_path = file.current_path ∧
        u.status = "duplicate" ∧
        (organizeFile today st os file destBase batchId true).1.db.files =
          st.db.files.map (applyFileUpdate u)) := by
  by_cases hsrc : (!fsExists st.fs (jsOr file.current_path file.original_path)) = true
  · constructor
    · simp [organizeFile, hsrc]
    · left
      simp [organizeFile, hsrc, logOperation, insertOperation]
  · cases hdup : checkForExistingDuplicate st.db file.hash_sha256 file.id with
    | some d =>
      constructor
      · simp [organizeFile, hsrc, hdup]
      · right
        refine ⟨{ id := file.id
                  current_path := file.current_path
                  hash_sha256 := file.hash_sha256
                  hash_head := file.hash_head
                  mime_type := file.mime_type
                  exif_date := file.exif_date
                  resolved_date := file.resolved_date
                  date_source := file.date_source
                  status := "duplicate"
                  duplicate_of := some d.id
                  metadata_json := file.metadata_json }, rfl, rfl, rfl, ?_⟩
        simp [organizeFile, hsrc, hdup, logOperation, insertOperation, updateFile]
    | none =>
      constructor
      · simp [organizeFile, hsrc, hdup]
      · left
        simp [organizeFile, hsrc, hdup, logOperation, insertOperation]

/-- Helper: applying a duplicate-marking update whose target row keeps
its current_path preserves the dry-run frame relation. -/
theorem forall2_dry_update (u : FileUpdate) (hu : u.status = "duplicate") :
    ∀ (l l' : List FileRecord), List.Forall₂ dryKeeps l l' →
      (∀ f ∈ l, f.id = u.id → f.current_path = u.current_path) →
      List.Forall₂ dryKeeps l (l'.map (applyFileUpdate u)) := by
  intro l l' h
  induction h with
  | nil => intro _; exact List.Forall₂.nil
  | @cons a b l1 l2 hab hrest ih =>
    intro hcp
    rw [List.map_cons]
    refine List.Forall₂.cons ?_ (ih (fun f hf hid => hcp f (List.mem_cons_of_mem _ hf) hid))
    obtain ⟨h1, h2, h3, _⟩ := hab
    rw [applyFileUpdate]
    by_cases hid : b.id = u.id
    · rw [if_pos hid]
      have hacp : a.current_path = u.current_path :=
        hcp a (List.mem_cons_self a l1) (by rw [← h1, hid])
      exact ⟨h1, h2, hacp.symm, Or.inr hu⟩
    · rw [if_neg hid]
      exact ⟨h1, h2, h3, (by assumption)⟩

/-- Helper: the dry-run organize fold keeps the filesystem and the
dry-run frame relation on the files table, given unique row ids and
snapshots drawn from the initial table. -/
theorem organize_dry_fold (today : YMD) (destBase batchId : String) :
    ∀ (sel : List FileRecord) (st0 : Sys) (acc : Sys × OrgStatus),
      (∀ f ∈ sel, f ∈ st0.db.files) →
      (st0.db.files.map (fun f => f.id)).Nodup →
      acc.1.fs = st0.fs →
      List.Forall₂ dryKeeps st0.db.files acc.1.db.files →
      (sel.foldl (organizeStep today destBase batchId true) acc).1.fs = st0.fs ∧
        List.Forall₂ dryKeeps st0.db.files
          (sel.foldl (organizeStep today destBase batchId true) acc).1.db.files := by
  intro sel
  induction sel with
  | nil => intro st0 acc _ _ hfs hrel; exact ⟨hfs, hrel⟩
  | cons file rest ih =>
    intro st0 acc hmem hid hfs hrel
    rw [List.foldl_cons]
    have hfscur : (organizeStep today destBase batchId true acc file).1.fs = st0.fs := by
      show (organizeFile today acc.1 acc.2 file destBase batchId true).1.fs = st0.fs
      rw [(organizeFile_dry_cases today acc.1 acc.2 file destBase batchId).1, hfs]
    have hrelcur : List.Forall₂ dryKeeps st0.db.files
        (organizeStep today destBase batchId true acc file).1.db.files := by
      show List.Forall₂ dryKeeps st0.db.files
        (organizeFile today acc.1 acc.2 file destBase batchId true).1.db.files
      rcases (organizeFile_dry_cases today acc.1 acc.2 file destBase batchId).2 with
        hsame | ⟨u, hu1, hu2, hu3, hmap⟩
      · rw [hsame]; exact hrel
      · rw [hmap]
        refine forall2_dry_update u hu3 _ _ hrel ?_
        intro f hf hfid
        have hfile : file ∈ st0.db.files := hmem file (List.mem_cons_self file rest)
        have hfe : f = file := by
          refine List.inj_on_of_nodup_map hid hf hfile ?_
          rw [hfid, hu1]
        rw [hfe, ← hu2]
    exact ih st0 _ (fun f hf => hmem f (List.mem_cons_of_mem _ hf)) hid hfscur hrelcur

/-- Helper: the organize selection only returns rows of the files
table. -/
theorem filesToOrganize_subset (db : DB) (fileIds : Option (List Nat)) :
    ∀ f ∈ filesToOrganize db fileIds, f ∈ db.files := by
  intro f hf
  cases fileIds with
  | none =>
    simp only [filesToOrganize] at hf
    exact (List.mem_filter.mp hf).1
  | some ids =>
    simp only [filesToOrganize] at hf
    split at hf
    · exact (List.mem_filter.mp hf).1
    · exact (List.mem_filter.mp hf).1

/-- C8 amended: a dry run leaves the filesystem untouched and keeps every
FileRecord's id, original path and current_path, with statuses unchanged
except for the duplicate-at-destination marking, which it applies exactly
as a real run would; and per file, from the same state, the dry run logs
the same (kind, destination) ledger decision as a real run. Batch-level
decision identity with a following real run fails only when two files of
the set collide with each other, since a dry run reserves no destination
(the counterexample exhibits both departures). -/
theorem organize_dryRun_frame (today : YMD) (st : Sys) (destBase : String)
    (fileIds : Option (List Nat)) (batchId : String)
    (hid : (st.db.files.map (fun f => f.id)).Nodup) :
    (organizeFiles today st destBase true fileIds batchId).1.fs = st.fs ∧
    List.Forall₂ dryKeeps st.db.files
      (organizeFiles today st destBase true fileIds batchId).1.db.files ∧
    (∀ (os1 os2 : OrgStatus) (file : FileRecord),
      ((organizeFile today st os1 file destBase batchId true).1.db.operations.drop
          st.db.operations.length).map (fun o => (o.operation_type, o.destination_path)) =
        ((organizeFile today st os2 file destBase batchId false).1.db.operations.drop
          st.db.operations.length).map (fun o => (o.operation_type, o.destination_path))) := by
  have hfold := organize_dry_fold today destBase batchId (filesToOrganize st.db fileIds) st
    (st, { batchId := batchId
           destinationBase := destBase
           dryRun := true
           status := "in_progress"
           totalFiles := (filesToOrganize st.db fileIds).length
           processedFiles := 0
           movedFiles := 0
           skippedFiles := 0
           duplicateFiles := 0
           errorFiles := 0
           operations := [] })
    (filesToOrganize_subset st.db fileIds) hid rfl
    (List.forall₂_same.mpr (fun x _ => ⟨rfl, rfl, rfl, Or.inl ⟨rfl, rfl⟩⟩))
  refine ⟨hfold.1, hfold.2, ?_⟩
  intro os1 os2 file
  by_cases hsrc : (!fsExists st.fs (jsOr file.current_path file.original_path)) = true
  · simp [organizeFile, hsrc]
  · cases hdup : checkForExistingDuplicate st.db file.hash_sha256 file.id with
    | some d => simp [organizeFile, hsrc, hdup]
    | none =>
      simp [organizeFile, hsrc, hdup, logOperation, insertOperation, updateFile,
        List.drop_left]

/-- C8 witness: the dry-run frame applied at the c8st world. -/
theorem organize_dryRun_frame_witness :
    (organizeFiles today0 c8st "/dest" true none "b1").1.fs = c8st.fs :=
  (organize_dryRun_frame today0 c8st "/dest" none "b1" (by decide)).1

/-- Helper: collision handling returns an unoccupied proposed destination
unchanged. -/
theorem handleCollision_of_free (fs : FS) (p : String) (hash : Option String)
    (hfree : fsExists fs p = false) :
    handleCollision fs p hash (collisionFuel fs) = p := by
  rw [handleCollision, collisionFuel,
    show fs.length + 102 = (fs.length + 101) + 1 from rfl]
  exact handleCollisionLoop_stop fs _ _ _ hash (fs.length + 101) 1 p hfree

/-- C10: a dry-run organizeFile writes a ledger entry of kind move with
status completed — the identical kind and status a real move produces —
under a fresh batch id, so revertBatch on the dry-run batch selects that
entry and attempts to revert a move that never happened: the attempt
fails with the missing-destination error and is counted as failed. -/
theorem dryRun_ledger_move_completed (hashFn : String → String) (today : YMD)
    (st : Sys) (os : OrgStatus) (file : FileRecord) (destBase batchId : String)
    (hsrc : fsExists st.fs (jsOr file.current_path file.original_path) = true)
    (hdup : checkForExistingDuplicate st.db file.hash_sha256 file.id = none)
    (hdest : fsExists st.fs
      (generateDestinationPath today destBase file.resolved_date file.filename) = false)
    (hfresh : ∀ o ∈ st.db.operations, o.batch_id ≠ batchId)
    (hmem : file ∈ st.db.files) :
    ∃ op : Operation,
      (organizeFile today st os file destBase batchId true).1.db.operations =
        st.db.operations ++ [op] ∧
      op.operation_type = "move" ∧
      op.status = "completed" ∧
      op.batch_id = batchId ∧
      op.destination_path =
        some (generateDestinationPath today destBase file.resolved_date file.filename) ∧
      (organizeFile today st os file destBase batchId true).1.fs = st.fs ∧
      selectBatchMoves (organizeFile today st os file destBase batchId true).1.db
        batchId = [op] ∧
      ∃ st2 r, revertBatch hashFn (organizeFile today st os file destBase batchId true).1
          batchId = Except.ok (st2, r) ∧
        r.totalOperations = 1 ∧ r.reverted = 0 ∧ r.skipped = 0 ∧ r.failed = 1 ∧
        r.errors = [(op.id, "File no longer exists at destination path")] := by
  have hsrc2 : (!fsExists st.fs (jsOr file.current_path file.original_path)) = true → False := by
    simp [hsrc]
  have hcoll := handleCollision_of_free st.fs
    (generateDestinationPath today destBase file.resolved_date file.filename)
    file.hash_sha256 hdest
  have hops : (organizeFile today st os file destBase batchId true).1.db.operations =
      st.db.operations ++
        [{ id := st.db.nextOpId
           batch_id := batchId
           file_id := file.id
           operation_type := "move"
           source_path := jsOr file.current_path file.original_path
           destination_path :=
             some (generateDestinationPath today destBase file.resolved_date file.filename)
           hash_used := file.hash_sha256
           reason := "Dry run - would move"
           status := "completed"
           created_at := st.db.nextTime }] := by
    simp [organizeFile, hsrc, hdup, hcoll, logOperation, insertOperation]
  have hfs : (organizeFile today st os file destBase batchId true).1.fs = st.fs := by
    simp [organizeFile, hsrc, hdup]
  have hfiles : (organizeFile today st os file destBase batchId true).1.db.files =
      st.db.files := by
    simp [organizeFile, hsrc, hdup, logOperation, insertOperation]
  have hsel : selectBatchMoves (organizeFile today st os file destBase batchId true).1.db
      batchId =
      [{ id := st.db.nextOpId
         batch_id := batchId
         file_id := file.id
         operation_type := "move"
         source_path := jsOr file.current_path file.original_path
         destination_path :=
           some (generateDestinationPath today destBase file.resolved_date file.filename)
         hash_used := file.hash_sha256
         reason := "Dry run - would move"
         status := "completed"
         created_at := st.db.nextTime }] := by
    rw [selectBatchMoves, hops, List.filter_append]
    have h1 : st.db.operations.filter (fun o =>
        o.batch_id == batchId && o.operation_type == "move" &&
          o.status == "completed") = [] := by
      rw [List.filter_eq_nil_iff]
      intro o ho
      simp [hfresh o ho]
    rw [h1]
    simp [List.insertionSort, List.orderedInsert]
  have hrev : revertOperation hashFn (organizeFile today st os file destBase batchId true).1
      { id := st.db.nextOpId
        batch_id := batchId
        file_id := file.id
        operation_type := "move"
        source_path := jsOr file.current_path file.original_path
        destination_path :=
          some (generateDestinationPath today destBase file.resolved_date file.filename)
        hash_used := file.hash_sha256
        reason := "Dry run - would move"
        status := "completed"
        created_at := st.db.nextTime } =
      Except.error "File no longer exists at destination path" := by
    have hfind : ((organizeFile today st os file destBase batchId
        true).1.db.files.find? (fun f => f.id == file.id)).isSome = true := by
      rw [hfiles]
      exact List.find?_isSome.mpr ⟨file, hmem, by simp⟩
    obtain ⟨f0, hf0⟩ := Option.isSome_iff_exists.mp hfind
    have hget : fsGet (organizeFile today st os file destBase batchId true).1.fs
        (generateDestinationPath today destBase file.resolved_date file.filename) =
        none := by
      rw [hfs]
      rw [fsExists] at hdest
      exact Option.not_isSome_iff_eq_none.mp (by simpa using hdest)
    simp [revertOperation, getFileById, hf0, hget]
  refine ⟨_, hops, rfl, rfl, rfl, rfl, hfs, hsel, ?_⟩
  have hrb : revertBatch hashFn (organizeFile today st os file destBase batchId true).1
      batchId =
      Except.ok ((organizeFile today st os file destBase batchId true).1,
        { batchId := batchId
          totalOperations := 1
          reverted := 0
          failed := 0 + 1
          skipped := 0
          errors := [(st.db.nextOpId, "File no longer exists at destination path")] }) := by
    rw [revertBatch]
    simp only [hsel]
    rw [if_neg (by simp)]
    rw [List.foldl_cons, List.foldl_nil]
    rw [revertBatchStep, hrev]
    simp
  exact ⟨_, _, hrb, rfl, rfl, rfl, by simp, rfl⟩

/-- Helper: content lookup in a one-entry-extended filesystem. -/
theorem fsGet_cons (e : String × String) (fs : FS) (p : String) :
    fsGet (e :: fs) p = if e.1 = p then some e.2 else fsGet fs p := by
  by_cases h : e.1 = p <;> simp [fsGet, List.find?_cons, h]

/-- Helper: content lookup after erasing a path. -/
theorem fsGet_fsErase (fs : FS) (q p : String) :
    fsGet (fsErase fs q) p = if p = q then none else fsGet fs p := by
  induction fs with
  | nil => simp [fsGet, fsErase]
  | cons e rest ih =>
    rw [fsErase, List.filter_cons]
    by_cases hq : e.1 = q
    · rw [if_neg (by simp [hq])]
      rw [show List.filter (fun x => x.1 != q) rest = fsErase rest q from rfl, ih]
      by_cases hpq : p = q
      · simp [hpq]
      · rw [if_neg hpq, if_neg hpq, fsGet_cons,
          if_neg (fun h => hpq (by rw [← h, hq]))]
    · rw [if_pos (by simp [hq])]
      rw [fsGet_cons]
      by_cases hp : e.1 = p
      · have hpq : ¬ p = q := by rw [← hp]; exact hq
        rw [if_pos hp, if_neg hpq, fsGet_cons, if_pos hp]
      · rw [if_neg hp,
          show List.filter (fun x => x.1 != q) rest = fsErase rest q from rfl, ih]
        by_cases hpq : p = q
        · simp [hpq]
        · rw [if_neg hpq, if_neg hpq, fsGet_cons, if_neg hp]

/-- Helper: content lookup after writing a path. -/
theorem fsGet_fsSet (fs : FS) (q : String) (c : String) (p : String) :
    fsGet (fsSet fs q c) p = if p = q then some c else fsGet fs p := by
  rw [fsSet, fsGet_cons, fsGet_fsErase]
  by_cases h : q = p
  · rw [if_pos h, if_pos h.symm]
  · rw [if_neg h, if_neg (fun hh => h hh.symm), if_neg (fun hh => h hh.symm)]

/-- Helper: content lookup after a rename. -/
theorem fsGet_fsRename (fs : FS) (src dst p : String) :
    fsGet (fsRename fs src dst) p =
      match fsGet fs src with
      | none => fsGet fs p
      | some c => if p = dst then some c else if p = src then none else fsGet fs p := by
  cases hs : fsGet fs src with
  | none => simp [fsRename, hs]
  | some c =>
    simp only [fsRename, hs]
    rw [fsGet_fsSet, fsGet_fsErase]

/-- Helper: replaying moves that never mention a path leaves its content
alone. -/
theorem fsGet_applyMoveOps_untouched (p : String) :
    ∀ (ops : List Operation) (fs : FS),
      (∀ op ∈ ops, p ≠ op.source_path ∧ p ≠ op.destination_path.getD "") →
      fsGet (applyMoveOps fs ops) p = fsGet fs p := by
  intro ops
  induction ops with
  | nil => intro fs _; rfl
  | cons op rest ih =>
    intro fs hnot
    rw [applyMoveOps, List.foldl_cons]
    have hstep : fsGet (fsRename fs op.source_path (op.destination_path.getD "")) p =
        fsGet fs p := by
      rw [fsGet_fsRename]
      cases hs : fsGet fs op.source_path with
      | none => rfl
      | some c =>
        have h1 := (hnot op (List.mem_cons_self op rest)).1
        have h2 := (hnot op (List.mem_cons_self op rest)).2
        simp [h1, h2]
    have := ih (fsRename fs op.source_path (op.destination_path.getD ""))
      (fun o ho => hnot o (List.mem_cons_of_mem _ ho))
    rw [applyMoveOps] at this
    rw [this, hstep]

/-- Helper: updateFile preserves the ids of the files table. -/
theorem updateFile_ids (db : DB) (u : FileUpdate) :
    (updateFile db u).files.map (fun f => f.id) = db.files.map (fun f => f.id) := by
  rw [updateFile]
  simp only [List.map_map]
  refine List.map_congr_left ?_
  intro f _
  rw [Function.comp, applyFileUpdate]
  by_cases h : f.id = u.id
  · rw [if_pos h]
  · rw [if_neg h]

/-- Helper: updateFile leaves the ledger untouched. -/
theorem updateFile_operations (db : DB) (u : FileUpdate) :
    (updateFile db u).operations = db.operations := rfl

/-- Helper: updateFile leaves the creation-time counter untouched. -/
theorem updateFile_nextTime (db : DB) (u : FileUpdate) :
    (updateFile db u).nextTime = db.nextTime := rfl

/-- Helper: updateFile leaves the ledger id counter untouched. -/
theorem updateFile_nextOpId (db : DB) (u : FileUpdate) :
    (updateFile db u).nextOpId = db.nextOpId := rfl

/-- Helper: with a truthy hash every value the collision loop can return
is the current candidate, a numeric candidate between the counter and
100, or the hash fallback. -/
theorem handleCollisionLoop_mem (fs : FS) (dir base ext : String) (hash : Option String)
    (htr : optTruthy hash = true) :
    ∀ fuel c fp,
      handleCollisionLoop fs dir base ext hash fuel c fp = fp ∨
      (∃ n, c ≤ n ∧ n ≤ 100 ∧
        handleCollisionLoop fs dir base ext hash fuel c fp = numberCand dir base ext n) ∨
      handleCollisionLoop fs dir base ext hash fuel c fp = hashCand dir base ext hash := by
  intro fuel
  induction fuel with
  | zero => intro c fp; exact Or.inl rfl
  | succ m ih =>
    intro c fp
    by_cases hex : fsExists fs fp = true
    · by_cases h100 : 100 < c + 1
      · refine Or.inr (Or.inr ?_)
        simp [handleCollisionLoop, hex, h100, htr]
      · rw [handleCollisionLoop_step fs dir base ext hash m c fp hex h100]
        rcases ih (c + 1) (numberCand dir base ext c) with h | ⟨n, hn1, hn2, h⟩ | h
        · exact Or.inr (Or.inl ⟨c, Nat.le_refl c, by omega, h⟩)
        · exact Or.inr (Or.inl ⟨n, by omega, hn2, h⟩)
        · exact Or.inr (Or.inr h)
    · have hex2 : fsExists fs fp = false := by simpa using hex
      rw [handleCollisionLoop_stop fs dir base ext hash m c fp hex2]
      exact Or.inl rfl

/-- Helper: with a truthy hash handleCollision returns the proposed path,
a numeric disambiguation of it, or its hash fallback. -/
theorem handleCollision_mem (fs : FS) (destPath : String) (hash : Option String)
    (fuel : Nat) (htr : optTruthy hash = true) :
    handleCollision fs destPath hash fuel = destPath ∨
    (∃ n, 1 ≤ n ∧ n ≤ 100 ∧ handleCollision fs destPath hash fuel =
      numberCand (pathDirname destPath)
        (pathBasenameStrip destPath (pathExtname destPath)) (pathExtname destPath) n) ∨
    handleCollision fs destPath hash fuel = hashCand (pathDirname destPath)
      (pathBasenameStrip destPath (pathExtname destPath)) (pathExtname destPath) hash := by
  simp only [handleCollision]
  exact handleCollisionLoop_mem fs _ _ _ hash htr fuel 1 destPath

/-- Helper: with a truthy hash, ample fuel and a free hash-fallback path
handleCollision returns a path free on the filesystem. -/
theorem handleCollision_result_free (fs : FS) (destPath : String) (hash : Option String)
    (fuel : Nat) (htr : optTruthy hash = true) (hfuel : 100 ≤ fuel)
    (hhc : fsExists fs (hashCand (pathDirname destPath)
      (pathBasenameStrip destPath (pathExtname destPath))
      (pathExtname destPath) hash) = false) :
    fsExists fs (handleCollision fs destPath hash fuel) = false := by
  simp only [handleCollision]
  rcases handleCollisionLoop_result fs (pathDirname destPath)
      (pathBasenameStrip destPath (pathExtname destPath)) (pathExtname destPath)
      hash htr fuel 1 destPath (by omega) (by omega) with h | h
  · exact h
  · rw [h]
    exact hhc

/-- Helper: the hash fallback is itself a candidate. -/
theorem hashCandOf_mem_candList (today : YMD) (destBase : String) (f : FileRecord) :
    hashCandOf today destBase f ∈ candList today destBase f := by
  simp [candList]

/-- Helper: the path handleCollision chooses for a record is one of the
record's candidates. -/
theorem handleCollision_mem_candList (fs : FS) (today : YMD) (destBase : String)
    (f : FileRecord) (fuel : Nat) (htr : optTruthy f.hash_sha256 = true) :
    handleCollision fs (dstOf today destBase f) f.hash_sha256 fuel ∈
      candList today destBase f := by
  rcases handleCollision_mem fs (dstOf today destBase f) f.hash_sha256 fuel htr with
    h | ⟨n, hn1, hn2, h⟩ | h
  · rw [h]
    exact List.mem_cons_self _ _
  · rw [h, candList]
    refine List.mem_cons_of_mem _ (List.mem_append_left _ (List.mem_map.mpr
      ⟨n - 1, List.mem_range.mpr (by omega), ?_⟩))
    rw [Nat.sub_add_cancel hn1]
  · rw [h, candList]
    exact List.mem_cons_of_mem _ (List.mem_append_right _ (by simp [hashCandOf]))

/-- Helper: content lookup after a rename whose source is present. -/
theorem fsGet_fsRename_some (fs : FS) (src dst p : String) (c : String)
    (h : fsGet fs src = some c) :
    fsGet (fsRename fs src dst) p =
      if p = dst then some c else if p = src then none else fsGet fs p := by
  rw [fsGet_fsRename, h]

/-- Helper: an occupied path that is never a move's source stays occupied
through a replay of the moves. -/
theorem fsExists_applyMoveOps_of_not_src (p : String) :
    ∀ (ops : List Operation) (fs : FS), fsExists fs p = true →
      (∀ op ∈ ops, p ≠ op.source_path) →
      fsExists (applyMoveOps fs ops) p = true := by
  intro ops
  induction ops with
  | nil => intro fs h _; exact h
  | cons op rest ih =>
    intro fs h hnot
    rw [applyMoveOps, List.foldl_cons]
    have hstep : fsExists
        (fsRename fs op.source_path (op.destination_path.getD "")) p = true := by
      cases hs : fsGet fs op.source_path with
      | none =>
        have he : fsRename fs op.source_path (op.destination_path.getD "") = fs := by
          rw [fsRename, hs]
        rw [he]
        exact h
      | some c =>
        rw [fsExists, fsGet_fsRename_some _ _ _ _ c hs]
        by_cases hpd : p = op.destination_path.getD ""
        · rw [if_pos hpd]
          rfl
        · rw [if_neg hpd, if_neg (hnot op (List.mem_cons_self op rest))]
          rw [fsExists] at h
          exact h
    have hrest := ih (fsRename fs op.source_path (op.destination_path.getD "")) hstep
      (fun o ho => hnot o (List.mem_cons_of_mem _ ho))
    rw [applyMoveOps] at hrest
    exact hrest

/-- Helper: a real-run organizeFile on a vanished source only appends a
skip entry. -/
theorem organizeFile_real_skip (today : YMD) (st : Sys) (os : OrgStatus)
    (file : FileRecord) (destBase b : String)
    (hsrc : fsExists st.fs (srcOf file) = false) :
    (organizeFile today st os file destBase b false).1.fs = st.fs ∧
    (organizeFile today st os file destBase b false).1.db.files = st.db.files ∧
    movesOfBatch (organizeFile today st os file destBase b false).1.db b =
      movesOfBatch st.db b ∧
    (organizeFile today st os file destBase b false).1.db.nextTime =
      st.db.nextTime + 1 := by
  rw [srcOf] at hsrc
  refine ⟨?_, ?_, ?_, ?_⟩
  · simp [organizeFile, hsrc]
  · simp [organizeFile, hsrc, logOperation, insertOperation]
  · simp [organizeFile, hsrc, logOperation, insertOperation, movesOfBatch,
      List.filter_append]
  · simp [organizeFile, hsrc, logOperation, insertOperation]

/-- Helper: a real-run organizeFile hitting a duplicate at destination
marks the record and appends a duplicate entry; no move entry, no
filesystem change. -/
theorem organizeFile_real_dup (today : YMD) (st : Sys) (os : OrgStatus)
    (file : FileRecord) (destBase b : String) (d : FileRecord)
    (hsrc : fsExists st.fs (srcOf file) = true)
    (hdup : checkForExistingDuplicate st.db file.hash_sha256 file.id = some d) :
    (organizeFile today st os file destBase b false).1.fs = st.fs ∧
    (organizeFile today st os file destBase b false).1.db.files.map (fun f => f.id) =
      st.db.files.map (fun f => f.id) ∧
    movesOfBatch (organizeFile today st os file destBase b false).1.db b =
      movesOfBatch st.db b ∧
    (organizeFile today st os file destBase b false).1.db.nextTime =
      st.db.nextTime + 1 := by
  rw [srcOf] at hsrc
  refine ⟨?_, ?_, ?_, ?_⟩
  · simp [organizeFile, hsrc, hdup]
  · simp [organizeFile, hsrc, hdup, logOperation, insertOperation, updateFile_ids]
  · simp [organizeFile, hsrc, hdup, logOperation, insertOperation, movesOfBatch,
      List.filter_append, updateFile_operations]
  · simp [organizeFile, hsrc, hdup, logOperation, insertOperation, updateFile_nextTime]

/-- Helper: a real-run organizeFile with a live source and no existing
duplicate renames the file to the path collision resolution chooses,
updates the record and appends the move entry. -/
theorem organizeFile_real_move (today : YMD) (st : Sys) (os : OrgStatus)
    (file : FileRecord) (destBase b : String)
    (hsrc : fsExists st.fs (srcOf file) = true)
    (hdup : checkForExistingDuplicate st.db file.hash_sha256 file.id = none) :
    (organizeFile today st os file destBase b false).1.fs =
      fsRename st.fs (srcOf file)
        (handleCollision st.fs (dstOf today destBase file) file.hash_sha256
          (collisionFuel st.fs)) ∧
    (organizeFile today st os file destBase b false).1.db.files.map (fun f => f.id) =
      st.db.files.map (fun f => f.id) ∧
    movesOfBatch (organizeFile today st os file destBase b false).1.db b =
      movesOfBatch st.db b ++
        [moveOpOf b file
          (handleCollision st.fs (dstOf today destBase file) file.hash_sha256
            (collisionFuel st.fs)) st.db.nextOpId st.db.nextTime] ∧
    (organizeFile today st os file destBase b false).1.db.nextTime =
      st.db.nextTime + 1 := by
  rw [srcOf] at hsrc
  refine ⟨?_, ?_, ?_, ?_⟩
  · simp [organizeFile, hsrc, hdup, srcOf, dstOf]
  · simp [organizeFile, hsrc, hdup, logOperation, insertOperation, updateFile_ids]
  · simp [organizeFile, hsrc, hdup, logOperation, insertOperation, movesOfBatch,
      List.filter_append, updateFile_operations, updateFile_nextTime, updateFile_nextOpId,
      moveOpOf, srcOf, dstOf]
  · simp [organizeFile, hsrc, hdup, logOperation, insertOperation,
      updateFile_nextTime]

/-- Helper: extend a chronological chain by a later element. -/
theorem chain'_snoc {α : Type} {R : α → α → Prop} (l : List α) (a : α)
    (h : List.Chain' R l) (hall : ∀ x ∈ l, R x a) : List.Chain' R (l ++ [a]) := by
  refine h.append (List.chain'_singleton a) ?_
  intro x hx y hy
  have hyx : a = y := by simpa using hy
  obtain ⟨hne, hxl⟩ := List.mem_getLast?_eq_getLast hx
  subst hyx
  exact hall x (hxl ▸ List.getLast_mem hne)

/-- Helper: append a fresh element to a duplicate-free list. -/
theorem nodup_snoc {α : Type} (l : List α) (a : α) (h : l.Nodup) (ha : a ∉ l) :
    (l ++ [a]).Nodup := by
  simp [List.nodup_append, h, ha]

/-- Helper: replaying one more move. -/
theorem applyMoveOps_snoc (fs : FS) (l : List Operation) (op : Operation) :
    applyMoveOps fs (l ++ [op]) =
      fsRename (applyMoveOps fs l) op.source_path (op.destination_path.getD "") := by
  rw [applyMoveOps, applyMoveOps, List.foldl_append, List.foldl_cons, List.foldl_nil]

/-- Helper (round-trip, organize side): a real organize fold over records
with distinct sources — sources never shaped like candidate destination
paths, fingerprint-fallback paths free and reserved per record, recorded
fingerprints coherent with the content on disk — produces a batch trace
satisfying TraceOk, with the filesystem equal to the replay of the
batch's move entries and the catalog's row ids untouched; each move's
destination is whatever path collision resolution chooses against the
filesystem of its turn. -/
theorem organize_real_trace (hashFn : String → String) (today : YMD)
    (destBase b : String) (st0 : Sys) (hhne : ∀ c, hashFn c ≠ "") :
    ∀ (sel : List FileRecord) (stk : Sys) (osk : OrgStatus),
      (∀ f ∈ sel, f ∈ st0.db.files) →
      (∀ f ∈ sel, ∀ c, fsGet st0.fs (srcOf f) = some c →
        f.hash_sha256 = some (hashFn c)) →
      List.Pairwise (fun f g => srcOf f ≠ srcOf g) sel →
      (∀ f ∈ sel, ∀ g ∈ sel, srcOf f ∉ candList today destBase g) →
      (∀ f ∈ sel, fsExists st0.fs (hashCandOf today destBase f) = false) →
      (∀ f ∈ sel, ∀ g ∈ sel, f.id ≠ g.id →
        hashCandOf today destBase g ∉ candList today destBase f) →
      (sel.map (fun f => f.id)).Nodup →
      stk.fs = applyMoveOps st0.fs (movesOfBatch stk.db b) →
      TraceOk hashFn b st0 (movesOfBatch stk.db b) →
      (∀ op ∈ movesOfBatch stk.db b, op.created_at < stk.db.nextTime) →
      stk.db.files.map (fun f => f.id) = st0.db.files.map (fun f => f.id) →
      (∀ op ∈ movesOfBatch stk.db b,
        fsExists stk.fs (op.destination_path.getD "") = true) →
      (∀ op ∈ movesOfBatch stk.db b, ∀ g ∈ sel,
        op.source_path ≠ srcOf g ∧
        op.destination_path.getD "" ≠ srcOf g ∧
        op.source_path ∉ candList today destBase g ∧
        op.destination_path.getD "" ≠ hashCandOf today destBase g ∧
        op.file_id ≠ g.id) →
      (sel.foldl (organizeStep today destBase b false) (stk, osk)).1.fs =
        applyMoveOps st0.fs
          (movesOfBatch
            (sel.foldl (organizeStep today destBase b false) (stk, osk)).1.db b) ∧
      TraceOk hashFn b st0
        (movesOfBatch
          (sel.foldl (organizeStep today destBase b false) (stk, osk)).1.db b) ∧
      (∀ op ∈ movesOfBatch
          (sel.foldl (organizeStep today destBase b false) (stk, osk)).1.db b,
        op.created_at <
          (sel.foldl (organizeStep today destBase b false) (stk, osk)).1.db.nextTime) ∧
      (sel.foldl (organizeStep today destBase b false) (stk, osk)).1.db.files.map
        (fun f => f.id) = st0.db.files.map (fun f => f.id) := by
  intro sel
  induction sel with
  | nil =>
    intro stk osk _ _ _ _ _ _ _ hfs htrace htime hidm _ _
    exact ⟨hfs, htrace, htime, hidm⟩
  | cons g rest ih =>
    intro stk osk hsub hcoh hps hcross hhfree hhapart hids hfs htrace htime hidm hocc hsep
    rw [List.foldl_cons]
    have hstep1 : (organizeStep today destBase b false (stk, osk) g).1 =
        (organizeFile today stk osk g destBase b false).1 := rfl
    have hsep_g := fun op hop => hsep op hop g (List.mem_cons_self g rest)
    have hsrcval : fsGet stk.fs (srcOf g) = fsGet st0.fs (srcOf g) := by
      rw [hfs]
      refine fsGet_applyMoveOps_untouched _ _ _ ?_
      intro op hop
      exact ⟨Ne.symm (hsep_g op hop).1, Ne.symm (hsep_g op hop).2.1⟩
    have happly : ∀ (st2 : Sys),
        st2.fs = applyMoveOps st0.fs (movesOfBatch st2.db b) →
        TraceOk hashFn b st0 (movesOfBatch st2.db b) →
        (∀ op ∈ movesOfBatch st2.db b, op.created_at < st2.db.nextTime) →
        st2.db.files.map (fun f => f.id) = st0.db.files.map (fun f => f.id) →
        (∀ op ∈ movesOfBatch st2.db b,
          fsExists st2.fs (op.destination_path.getD "") = true) →
        (∀ op ∈ movesOfBatch st2.db b, ∀ g2 ∈ rest,
          op.source_path ≠ srcOf g2 ∧
          op.destination_path.getD "" ≠ srcOf g2 ∧
          op.source_path ∉ candList today destBase g2 ∧
          op.destination_path.getD "" ≠ hashCandOf today destBase g2 ∧
          op.file_id ≠ g2.id) →
        ∀ (os2 : OrgStatus),
          (rest.foldl (organizeStep today destBase b false) (st2, os2)).1.fs =
            applyMoveOps st0.fs
              (movesOfBatch
                (rest.foldl (organizeStep today destBase b false) (st2, os2)).1.db b) ∧
          TraceOk hashFn b st0
            (movesOfBatch
              (rest.foldl (organizeStep today destBase b false) (st2, os2)).1.db b) ∧
          (∀ op ∈ movesOfBatch
              (rest.foldl (organizeStep today destBase b false) (st2, os2)).1.db b,
            op.created_at <
              (rest.foldl (organizeStep today destBase b false) (st2, os2)).1.db.nextTime) ∧
          (rest.foldl (organizeStep today destBase b false) (st2, os2)).1.db.files.map
            (fun f => f.id) = st0.db.files.map (fun f => f.id) := by
      intro st2 h1 h2 h3 h4 h5 h6 os2
      exact ih st2 os2 (fun f hf => hsub f (List.mem_cons_of_mem _ hf))
        (fun f hf => hcoh f (List.mem_cons_of_mem _ hf))
        (List.Pairwise.of_cons hps)
        (fun f hf g2 hg2 => hcross f (List.mem_cons_of_mem _ hf) g2
          (List.mem_cons_of_mem _ hg2))
        (fun f hf => hhfree f (List.mem_cons_of_mem _ hf))
        (fun f hf g2 hg2 => hhapart f (List.mem_cons_of_mem _ hf) g2
          (List.mem_cons_of_mem _ hg2))
        (by simpa using (List.nodup_cons.mp (by simpa using hids)).2)
        h1 h2 h3 h4 h5 h6
    by_cases hex : fsExists stk.fs (srcOf g) = true
    · cases hdup : checkForExistingDuplicate stk.db g.hash_sha256 g.id with
      | some d =>
        obtain ⟨hf1, hf2, hf3, hf4⟩ :=
          organizeFile_real_dup today stk osk g destBase b d hex hdup
        have hres := happly (organizeStep today destBase b false (stk, osk) g).1
          (by rw [hstep1, hf1, hf3, hfs]) (by rw [hstep1, hf3]; exact htrace)
          (by rw [hstep1, hf3, hf4]
              intro op hop
              exact Nat.lt_succ_of_lt (htime op hop))
          (by rw [hstep1, hf2]; exact hidm)
          (by rw [hstep1, hf1, hf3]; exact hocc)
          (by rw [hstep1, hf3]
              intro op hop g2 hg2
              exact hsep op hop g2 (List.mem_cons_of_mem _ hg2))
          (organizeStep today destBase b false (stk, osk) g).2
        exact hres
      | none =>
        obtain ⟨c, hc⟩ : ∃ c, fsGet st0.fs (srcOf g) = some c := by
          rw [fsExists, hsrcval] at hex
          exact Option.isSome_iff_exists.mp hex
        have hcstk : fsGet stk.fs (srcOf g) = some c := by rw [hsrcval, hc]
        have hhash : g.hash_sha256 = some (hashFn c) :=
          hcoh g (List.mem_cons_self g rest) c hc
        have htrh : optTruthy g.hash_sha256 = true := by
          rw [hhash]
          show (hashFn c != "") = true
          simp [hhne c]
        have hhc_stk : fsExists stk.fs (hashCandOf today destBase g) = false := by
          have huntouched : fsGet (applyMoveOps st0.fs (movesOfBatch stk.db b))
              (hashCandOf today destBase g) =
              fsGet st0.fs (hashCandOf today destBase g) := by
            refine fsGet_applyMoveOps_untouched _ _ _ ?_
            intro op hop
            refine ⟨?_, Ne.symm (hsep_g op hop).2.2.2.1⟩
            intro he
            exact (hsep_g op hop).2.2.1 (he ▸ hashCandOf_mem_candList today destBase g)
          rw [fsExists, hfs, huntouched]
          have hh := hhfree g (List.mem_cons_self g rest)
          rw [fsExists] at hh
          exact hh
        have hfree2 : fsExists stk.fs
            (handleCollision stk.fs (dstOf today destBase g) g.hash_sha256
              (collisionFuel stk.fs)) = false := by
          refine handleCollision_result_free stk.fs (dstOf today destBase g)
            g.hash_sha256 (collisionFuel stk.fs) htrh ?_ hhc_stk
          rw [collisionFuel]
          omega
        have hmemD : handleCollision stk.fs (dstOf today destBase g) g.hash_sha256
            (collisionFuel stk.fs) ∈ candList today destBase g :=
          handleCollision_mem_candList stk.fs today destBase g (collisionFuel stk.fs) htrh
        have hfree0 : fsExists st0.fs
            (handleCollision stk.fs (dstOf today destBase g) g.hash_sha256
              (collisionFuel stk.fs)) = false := by
          by_contra hcon
          have hoctrue : fsExists st0.fs (handleCollision stk.fs (dstOf today destBase g)
              g.hash_sha256 (collisionFuel stk.fs)) = true := by
            simpa using hcon
          have hkeep := fsExists_applyMoveOps_of_not_src _ (movesOfBatch stk.db b) st0.fs
            hoctrue (fun op hop he => (hsep_g op hop).2.2.1 (he ▸ hmemD))
          rw [← hfs, hfree2] at hkeep
          exact Bool.false_ne_true hkeep
        obtain ⟨hf1, hf2, hf3, hf4⟩ :=
          organizeFile_real_move today stk osk g destBase b hex hdup
        obtain ⟨D, hD⟩ : ∃ D, handleCollision stk.fs (dstOf today destBase g)
            g.hash_sha256 (collisionFuel stk.fs) = D := ⟨_, rfl⟩
        rw [hD] at hf1 hf3 hfree2 hmemD hfree0
        obtain ⟨ht1, ht2, ht3, ht4, ht5⟩ := htrace
        have hnewtrace : TraceOk hashFn b st0 (movesOfBatch stk.db b ++
            [moveOpOf b g D stk.db.nextOpId stk.db.nextTime]) := by
          refine ⟨?_, ?_, ?_, ?_, ?_⟩
          · refine chain'_snoc _ _ ht1 ?_
            intro x hx
            exact htime x hx
          · rw [List.map_append]
            refine nodup_snoc _ _ ht2 ?_
            intro hmem
            obtain ⟨op, hop, hope⟩ := List.mem_map.mp (by simpa using hmem)
            exact (hsep_g op hop).2.2.2.2 hope
          · rw [List.pairwise_append]
            refine ⟨ht3, List.pairwise_singleton _ _, ?_⟩
            intro a ha x hx
            have hxa : x = moveOpOf b g D stk.db.nextOpId stk.db.nextTime := by
              simpa using hx
            subst hxa
            refine ⟨(hsep_g a ha).1, ?_⟩
            show a.destination_path.getD "" ≠ D
            intro he
            have hoa := hocc a ha
            rw [he, hfree2] at hoa
            exact Bool.false_ne_true hoa
          · intro a ha a2 ha2
            rcases List.mem_append.mp ha with ha | ha <;>
              rcases List.mem_append.mp ha2 with ha2 | ha2
            · exact ht4 a ha a2 ha2
            · have : a2 = moveOpOf b g D stk.db.nextOpId stk.db.nextTime := by
                simpa using ha2
              subst this
              show a.source_path ≠ D
              intro he
              exact (hsep_g a ha).2.2.1 (he ▸ hmemD)
            · have : a = moveOpOf b g D stk.db.nextOpId stk.db.nextTime := by
                simpa using ha
              subst this
              show srcOf g ≠ a2.destination_path.getD ""
              exact Ne.symm (hsep_g a2 ha2).2.1
            · have h1 : a = moveOpOf b g D stk.db.nextOpId stk.db.nextTime := by
                simpa using ha
              have h2 : a2 = moveOpOf b g D stk.db.nextOpId stk.db.nextTime := by
                simpa using ha2
              subst h1; subst h2
              show srcOf g ≠ D
              intro he
              exact hcross g (List.mem_cons_self g rest) g (List.mem_cons_self g rest)
                (he ▸ hmemD)
          · intro op hop
            rcases List.mem_append.mp hop with hop | hop
            · exact ht5 op hop
            · have : op = moveOpOf b g D stk.db.nextOpId stk.db.nextTime := by
                simpa using hop
              subst this
              refine ⟨rfl, rfl, rfl, ⟨c, hc, hhash, hhne c⟩, ⟨D, rfl, hfree0⟩, ?_⟩
              exact ⟨g, hsub g (List.mem_cons_self g rest), rfl, rfl⟩
        have hres := happly (organizeStep today destBase b false (stk, osk) g).1
          (by rw [hstep1, hf1, hf3, hfs, applyMoveOps_snoc]; rfl)
          (by rw [hstep1, hf3]; exact hnewtrace)
          (by rw [hstep1, hf3, hf4]
              intro op hop
              rcases List.mem_append.mp hop with hop | hop
              · exact Nat.lt_succ_of_lt (htime op hop)
              · have : op = moveOpOf b g D stk.db.nextOpId stk.db.nextTime := by
                  simpa using hop
                subst this
                exact Nat.lt_succ_self _)
          (by rw [hstep1, hf2, hidm])
          (by rw [hstep1, hf1, hf3]
              intro op hop
              rcases List.mem_append.mp hop with hop | hop
              · have hold := hocc op hop
                rw [fsExists, fsGet_fsRename_some _ _ _ _ c hcstk]
                by_cases hpd : op.destination_path.getD "" = D
                · rw [if_pos hpd]
                  rfl
                · rw [if_neg hpd, if_neg (hsep_g op hop).2.1]
                  rw [fsExists] at hold
                  exact hold
              · have : op = moveOpOf b g D stk.db.nextOpId stk.db.nextTime := by
                  simpa using hop
                subst this
                show fsExists (fsRename stk.fs (srcOf g) D) D = true
                rw [fsExists, fsGet_fsRename_some _ _ _ _ c hcstk, if_pos rfl]
                rfl)
          (by rw [hstep1, hf3]
              intro op hop g2 hg2
              rcases List.mem_append.mp hop with hop | hop
              · exact hsep op hop g2 (List.mem_cons_of_mem _ hg2)
              · have : op = moveOpOf b g D stk.db.nextOpId stk.db.nextTime := by
                  simpa using hop
                subst this
                have hnd : (∀ x ∈ rest, ¬x.id = g.id) ∧
                    (List.map (fun f => f.id) rest).Nodup := by simpa using hids
                refine ⟨?_, ?_, ?_, ?_, ?_⟩
                · exact (List.pairwise_cons.mp hps).1 g2 hg2
                · show D ≠ srcOf g2
                  intro he
                  exact hcross g2 (List.mem_cons_of_mem _ hg2) g
                    (List.mem_cons_self g rest) (he ▸ hmemD)
                · show srcOf g ∉ candList today destBase g2
                  exact hcross g (List.mem_cons_self g rest) g2
                    (List.mem_cons_of_mem _ hg2)
                · show D ≠ hashCandOf today destBase g2
                  intro he
                  exact hhapart g (List.mem_cons_self g rest) g2
                    (List.mem_cons_of_mem _ hg2)
                    (fun hgid => hnd.1 g2 hg2 hgid.symm) (he ▸ hmemD)
                · show ¬ g.id = g2.id
                  exact fun he => hnd.1 g2 hg2 he.symm)
          (organizeStep today destBase b false (stk, osk) g).2
        exact hres
    · have hex2 : fsExists stk.fs (srcOf g) = false := by simpa using hex
      obtain ⟨hf1, hf2, hf3, hf4⟩ := organizeFile_real_skip today stk osk g destBase b hex2
      have hres := happly (organizeStep today destBase b false (stk, osk) g).1
        (by rw [hstep1, hf1, hf3, hfs]) (by rw [hstep1, hf3]; exact htrace)
        (by rw [hstep1, hf3, hf4]
            intro op hop
            exact Nat.lt_succ_of_lt (htime op hop))
        (by rw [hstep1, hf2, hidm])
        (by rw [hstep1, hf1, hf3]; exact hocc)
        (by rw [hstep1, hf3]
            intro op hop g2 hg2
            exact hsep op hop g2 (List.mem_cons_of_mem _ hg2))
        (organizeStep today destBase b false (stk, osk) g).2
      exact hres

/-- Helper: inserting an element every member rejects lands at the end. -/
theorem orderedInsert_all_not {α : Type} (r : α → α → Prop) [DecidableRel r] (a : α)
    (l : List α) (h : ∀ x ∈ l, ¬ r a x) : List.orderedInsert r a l = l ++ [a] := by
  induction l with
  | nil => rfl
  | cons e t ih =>
    rw [List.orderedInsert, if_neg (h e (List.mem_cons_self e t)),
      ih (fun x hx => h x (List.mem_cons_of_mem e hx)), List.cons_append]

/-- Helper: sorting a strictly chronological ledger slice newest-first
reverses it. -/
theorem insertionSort_desc (l : List Operation)
    (h : List.Pairwise (fun a a2 => a.created_at < a2.created_at) l) :
    List.insertionSort byNewest l = l.reverse := by
  induction l with
  | nil => rfl
  | cons a t ih =>
    rw [List.insertionSort, ih (List.Pairwise.of_cons h),
      orderedInsert_all_not byNewest a t.reverse ?_, List.reverse_cons]
    intro x hx
    have hlt : a.created_at < x.created_at :=
      (List.pairwise_cons.mp h).1 x (List.mem_reverse.mp hx)
    exact fun hle => Nat.not_le_of_lt hlt hle

/-- Helper: a catalogued id is found by getFileById. -/
theorem getFileById_mem (db : DB) (i : Nat)
    (hmem : i ∈ db.files.map (fun f => f.id)) :
    ∃ f, getFileById db i = some f ∧ f ∈ db.files ∧ f.id = i := by
  obtain ⟨g, hg, hgi⟩ := List.mem_map.mp hmem
  have hex : ∃ x ∈ db.files, (x.id == i) = true := ⟨g, hg, by simp [hgi]⟩
  have hsome : (db.files.find? (fun f => f.id == i)).isSome :=
    List.find?_isSome.mpr hex
  cases hfind : db.files.find? (fun f => f.id == i) with
  | none => rw [hfind] at hsome; exact absurd hsome (by simp)
  | some f =>
    refine ⟨f, by rw [getFileById, hfind], List.mem_of_find?_eq_some hfind, ?_⟩
    have := List.find?_some hfind
    simpa using this

/-- Helper: the row frame is reflexive. -/
theorem filesFrame_refl (ids : List Nat) (l : List FileRecord) :
    FilesFrame ids l l := by
  rw [FilesFrame]
  exact List.forall₂_same.mpr (fun g _ => ⟨rfl, fun _ => rfl⟩)

/-- Helper: a row frame preserves the id column. -/
theorem filesFrame_ids (ids : List Nat) (l l2 : List FileRecord)
    (h : FilesFrame ids l l2) :
    l2.map (fun f => f.id) = l.map (fun f => f.id) := by
  rw [FilesFrame] at h
  induction h with
  | nil => rfl
  | cons h1 _ ih => simp [h1.1, ih]

/-- Helper: a row frame for a smaller touched set weakens. -/
theorem filesFrame_mono (ids ids2 : List Nat) (l l2 : List FileRecord)
    (hsub : ∀ i ∈ ids, i ∈ ids2) (h : FilesFrame ids l l2) :
    FilesFrame ids2 l l2 := by
  rw [FilesFrame] at h ⊢
  refine List.Forall₂.imp ?_ h
  intro g g2 hg
  exact ⟨hg.1, fun hn => hg.2 (fun hmem => hn (hsub _ hmem))⟩

/-- Helper: row frames compose, accumulating the touched ids. -/
theorem filesFrame_comp (ids ids2 : List Nat) :
    ∀ (l l2 l3 : List FileRecord), FilesFrame ids l l2 → FilesFrame ids2 l2 l3 →
      FilesFrame (ids ++ ids2) l l3 := by
  intro l l2 l3 h1
  rw [FilesFrame] at h1
  induction h1 generalizing l3 with
  | nil =>
    intro h2
    cases h2
    exact filesFrame_refl _ _
  | cons hg htail ih =>
    intro h2
    rw [FilesFrame] at h2
    cases h2 with
    | cons hg2 htail2 =>
      rw [FilesFrame, List.forall₂_cons]
      refine ⟨⟨hg2.1.trans hg.1, ?_⟩, ih _ htail2⟩
      intro hn
      have hn1 : _ ∉ ids := fun hmem => hn (List.mem_append_left _ hmem)
      have hn2 := fun hmem => hn (List.mem_append_right ids hmem)
      have he1 := hg.2 hn1
      refine (hg2.2 ?_).trans he1
      rw [hg.1]
      exact fun hmem => hn2 (he1 ▸ hmem)

/-- Helper: a row whose id a frame never touches survives it. -/
theorem filesFrame_preserve (ids : List Nat) (l l2 : List FileRecord)
    (h : FilesFrame ids l l2) (f : FileRecord) (hf : f ∈ l) (hn : f.id ∉ ids) :
    f ∈ l2 := by
  rw [FilesFrame] at h
  induction h with
  | nil => exact absurd hf (by simp)
  | cons hg htail ih =>
    rcases List.mem_cons.mp hf with hf | hf
    · subst hf
      rw [← hg.2 hn]
      exact List.mem_cons_self _ _
    · exact List.mem_cons_of_mem _ (ih hf)

/-- Helper: updateFile is a row frame touching only its own id. -/
theorem updateFile_frame (db : DB) (u : FileUpdate) :
    FilesFrame [u.id] db.files (updateFile db u).files := by
  rw [FilesFrame, updateFile]
  rw [List.forall₂_map_right_iff]
  refine List.forall₂_same.mpr ?_
  intro g _
  constructor
  · rw [applyFileUpdate]
    by_cases h : g.id = u.id
    · rw [if_pos h]
    · rw [if_neg h]
  · intro hn
    rw [applyFileUpdate, if_neg (by simpa using hn)]

/-- Helper: a single revert succeeds on a coherent move entry — the file
is catalogued, alive at the recorded destination with the recorded
fingerprint, and the original location is free — renaming the file back
and restoring the record to its original path with status pending. -/
theorem revertOperation_undo (hashFn : String → String) (stk : Sys) (op : Operation)
    (c : String)
    (hty : op.operation_type = "move")
    (hst : op.status = "completed")
    (hfid : op.file_id ∈ stk.db.files.map (fun f => f.id))
    (hdst : fsGet stk.fs (op.destination_path.getD "") = some c)
    (hhash : op.hash_used = some (hashFn c))
    (hsrcfree : fsExists stk.fs op.source_path = false) :
    ∃ st1 rok, revertOperation hashFn stk op = Except.ok (st1, rok) ∧
      st1.fs = fsRename stk.fs (op.destination_path.getD "") op.source_path ∧
      st1.db.files.map (fun f => f.id) = stk.db.files.map (fun f => f.id) ∧
      FilesFrame [op.file_id] stk.db.files st1.db.files ∧
      (∃ f2 ∈ st1.db.files, f2.id = op.file_id ∧
        f2.current_path = some op.source_path ∧ f2.status = "pending") := by
  obtain ⟨file, hfind, hfmem, hfi⟩ := getFileById_mem stk.db op.file_id hfid
  have hne1 : ¬ op.operation_type ≠ "move" := by simp [hty]
  have hne2 : ¬ op.status = "reverted" := by simp [hst]
  have hcond : (optTruthy op.hash_used &&
      (hashFn c != op.hash_used.getD "")) = false := by
    simp [hhash]
  rw [revertOperation, if_neg hne1, if_neg hne2, hfind]
  simp only [hdst, hcond, Bool.false_eq_true, if_false, hsrcfree, if_pos rfl]
  refine ⟨_, _, rfl, rfl, ?_, ?_, ?_⟩
  · simp [insertOperation, updateOperationStatus, updateFile_ids]
  · have hfr := updateFile_frame stk.db
      { id := file.id
        current_path := some op.source_path
        hash_sha256 := file.hash_sha256
        hash_head := file.hash_head
        mime_type := file.mime_type
        exif_date := file.exif_date
        resolved_date := file.resolved_date
        date_source := file.date_source
        status := "pending"
        duplicate_of := none
        metadata_json := file.metadata_json }
    refine filesFrame_mono _ _ _ _ ?_ hfr
    intro i hi
    have hif : i = file.id := by simpa using hi
    simp [hif, hfi]
  · refine ⟨applyFileUpdate
      { id := file.id
        current_path := some op.source_path
        hash_sha256 := file.hash_sha256
        hash_head := file.hash_head
        mime_type := file.mime_type
        exif_date := file.exif_date
        resolved_date := file.resolved_date
        date_source := file.date_source
        status := "pending"
        duplicate_of := none
        metadata_json := file.metadata_json } file,
      ?_, ?_⟩
    · simp [insertOperation, updateOperationStatus, updateFile]
      exact ⟨file, hfmem, rfl⟩
    · rw [applyFileUpdate, if_pos rfl]
      exact ⟨hfi, rfl, rfl⟩

/-- Helper (round-trip, revert side): folding revertBatchStep over the
newest-first reversal of a TraceOk batch trace undoes every move — the
filesystem returns pointwise to the pre-organize one, the only touched
rows are the moved files, each restored to its original path with status
pending, and every entry is counted as reverted. -/
theorem revert_undo (hashFn : String → String) (b : String) (st0 : Sys) :
    ∀ (ms : List Operation) (stk : Sys) (r : BatchRevertResult),
      TraceOk hashFn b st0 ms →
      (∀ p, fsGet stk.fs p = fsGet (applyMoveOps st0.fs ms) p) →
      stk.db.files.map (fun f => f.id) = st0.db.files.map (fun f => f.id) →
      (∀ p, fsGet (ms.reverse.foldl (revertBatchStep hashFn) (stk, r)).1.fs p =
        fsGet st0.fs p) ∧
      FilesFrame (ms.map (fun o => o.file_id)) stk.db.files
        (ms.reverse.foldl (revertBatchStep hashFn) (stk, r)).1.db.files ∧
      (∀ op ∈ ms,
        ∃ f2 ∈ (ms.reverse.foldl (revertBatchStep hashFn) (stk, r)).1.db.files,
          f2.id = op.file_id ∧ f2.current_path = some op.source_path ∧
          f2.status = "pending") ∧
      (ms.reverse.foldl (revertBatchStep hashFn) (stk, r)).2 =
        { r with reverted := r.reverted + ms.length } := by
  intro ms
  induction ms using List.reverseRecOn with
  | nil =>
    intro stk r _ hfs _
    refine ⟨fun p => by simpa [applyMoveOps] using hfs p, filesFrame_refl _ _,
      by simp, ?_⟩
    cases r
    simp
  | append_singleton ms op ih =>
    intro stk r htr hfs hidm
    obtain ⟨hch, hnd, hpw, hcr, hops⟩ := htr
    obtain ⟨hty, hst, _, ⟨c, hc, hhash, _⟩, ⟨d, hd, hdfree⟩, f0, hf0mem, hf0id, _⟩ :=
      hops op (List.mem_append_right ms (List.mem_cons_self op []))
    have hdD : op.destination_path.getD "" = d := by rw [hd]; rfl
    obtain ⟨hpw1, _, hsep⟩ := List.pairwise_append.mp hpw
    have hopm : op ∈ ms ++ [op] := List.mem_append_right ms (List.mem_cons_self op [])
    have hsrc_ms : fsGet (applyMoveOps st0.fs ms) op.source_path =
        fsGet st0.fs op.source_path := by
      refine fsGet_applyMoveOps_untouched _ _ _ ?_
      intro a ha
      exact ⟨Ne.symm (hsep a ha op (List.mem_cons_self op []) :
          a.source_path ≠ op.source_path ∧ _).1,
        hcr op hopm a (List.mem_append_left _ ha)⟩
    have hdst_ms : fsGet (applyMoveOps st0.fs ms) (op.destination_path.getD "") =
        fsGet st0.fs (op.destination_path.getD "") := by
      refine fsGet_applyMoveOps_untouched _ _ _ ?_
      intro a ha
      exact ⟨Ne.symm (hcr a (List.mem_append_left _ ha) op hopm),
        Ne.symm (hsep a ha op (List.mem_cons_self op [])).2⟩
    have hdnone : fsGet st0.fs (op.destination_path.getD "") = none := by
      rw [hdD]
      cases hq : fsGet st0.fs d with
      | none => rfl
      | some x => rw [fsExists, hq] at hdfree; exact absurd hdfree (by simp)
    have hsd : op.source_path ≠ op.destination_path.getD "" := hcr op hopm op hopm
    have hstk_dst : fsGet stk.fs (op.destination_path.getD "") = some c := by
      rw [hfs, applyMoveOps_snoc,
        fsGet_fsRename_some _ _ _ _ c (hsrc_ms.trans hc), if_pos rfl]
    have hstk_src : fsGet stk.fs op.source_path = none := by
      rw [hfs, applyMoveOps_snoc,
        fsGet_fsRename_some _ _ _ _ c (hsrc_ms.trans hc), if_neg hsd, if_pos rfl]
    have hstk_srcfree : fsExists stk.fs op.source_path = false := by
      rw [fsExists, hstk_src]
      rfl
    have hfid : op.file_id ∈ stk.db.files.map (fun f => f.id) := by
      rw [hidm]
      exact List.mem_map.mpr ⟨f0, hf0mem, hf0id⟩
    obtain ⟨st1, rok, hrev, hst1fs, hst1ids, hst1frame, f2, hf2mem, hf2id, hf2cp, hf2st⟩ :=
      revertOperation_undo hashFn stk op c hty hst hfid hstk_dst hhash hstk_srcfree
    have hfold : ((ms ++ [op]).reverse).foldl (revertBatchStep hashFn) (stk, r) =
        ms.reverse.foldl (revertBatchStep hashFn)
          (st1, { r with reverted := r.reverted + 1 }) := by
      rw [List.reverse_append]
      simp only [List.reverse_singleton, List.singleton_append, List.foldl_cons]
      have hstep : revertBatchStep hashFn (stk, r) op =
          (st1, { r with reverted := r.reverted + 1 }) := by
        rw [revertBatchStep, hrev]
      rw [hstep]
    have hfs1 : ∀ p, fsGet st1.fs p = fsGet (applyMoveOps st0.fs ms) p := by
      intro p
      rw [hst1fs, fsGet_fsRename_some _ _ _ _ c hstk_dst]
      by_cases hp1 : p = op.source_path
      · rw [if_pos hp1, hp1, hsrc_ms, hc]
      · rw [if_neg hp1]
        by_cases hp2 : p = op.destination_path.getD ""
        · rw [if_pos hp2, hp2, hdst_ms, hdnone]
        · rw [if_neg hp2, hfs, applyMoveOps_snoc,
            fsGet_fsRename_some _ _ _ _ c (hsrc_ms.trans hc), if_neg hp2, if_neg hp1]
    have htr_ms : TraceOk hashFn b st0 ms := by
      refine ⟨(List.chain'_append.mp hch).1, ?_, hpw1, ?_, ?_⟩
      · rw [List.map_append] at hnd
        exact (List.nodup_append.mp hnd).1
      · exact fun a ha a2 ha2 =>
          hcr a (List.mem_append_left _ ha) a2 (List.mem_append_left _ ha2)
      · exact fun o ho => hops o (List.mem_append_left _ ho)
    obtain ⟨hfsF, hframeF, hrecF, hcntF⟩ :=
      ih st1 { r with reverted := r.reverted + 1 } htr_ms hfs1 (hst1ids.trans hidm)
    have hfid_notin : op.file_id ∉ ms.map (fun o => o.file_id) := by
      rw [List.map_append] at hnd
      intro hmem
      exact (List.nodup_append.mp hnd).2.2 hmem (List.mem_cons_self _ [])
    refine ⟨?_, ?_, ?_, ?_⟩
    · intro p
      rw [hfold]
      exact hfsF p
    · rw [hfold]
      refine filesFrame_mono _ _ _ _ ?_
        (filesFrame_comp _ _ _ _ _ hst1frame hframeF)
      intro i hi
      rw [List.map_append]
      rcases List.mem_append.mp hi with hi | hi
      · exact List.mem_append_right _ (by simpa using hi)
      · exact List.mem_append_left _ hi
    · intro op2 hop2
      rw [hfold]
      rcases List.mem_append.mp hop2 with hop2 | hop2
      · exact hrecF op2 hop2
      · have hop2e : op2 = op := by simpa using hop2
        subst hop2e
        refine ⟨f2, ?_, hf2id, hf2cp, hf2st⟩
        refine filesFrame_preserve _ _ _ hframeF f2 hf2mem ?_
        rw [hf2id]
        exact hfid_notin
    · rw [hfold, hcntF]
      cases r
      simp
      omega

/-- C1: a real (non-dry-run) organizeFiles batch followed by revertBatch
of that batch is a round trip. The destinations are the paths collision
resolution chooses — occupied proposed destinations and same-destination
files within the batch are covered, the moves landing on numeric
disambiguations. Hypotheses are the coherence the system maintains:
recorded fingerprints match the content on disk, selected records have
distinct catalogued source paths, no source path is shaped like a dated
candidate destination path, each record's fingerprint-fallback path is
free and reserved to it, the batch id is fresh and catalog ids are
unique. Then the revert succeeds, the filesystem returns pointwise to
its pre-organize state, and for every move entry of the batch the
content now at the entry's source path hashes exactly to the entry's
recorded verification fingerprint while the moved FileRecord's
current_path is its pre-organize path again. -/
theorem organize_revert_roundtrip
    (hashFn : String → String) (today : YMD) (destBase b : String) (st0 : Sys)
    (fileIds : Option (List Nat))
    (hhne : ∀ c, hashFn c ≠ "")
    (hcoh : ∀ f ∈ filesToOrganize st0.db fileIds, ∀ c,
      fsGet st0.fs (srcOf f) = some c → f.hash_sha256 = some (hashFn c))
    (hps : List.Pairwise (fun f g => srcOf f ≠ srcOf g) (filesToOrganize st0.db fileIds))
    (hcross : ∀ f ∈ filesToOrganize st0.db fileIds,
      ∀ g ∈ filesToOrganize st0.db fileIds, srcOf f ∉ candList today destBase g)
    (hhfree : ∀ f ∈ filesToOrganize st0.db fileIds,
      fsExists st0.fs (hashCandOf today destBase f) = false)
    (hhapart : ∀ f ∈ filesToOrganize st0.db fileIds,
      ∀ g ∈ filesToOrganize st0.db fileIds, f.id ≠ g.id →
        hashCandOf today destBase g ∉ candList today destBase f)
    (hids : ((filesToOrganize st0.db fileIds).map (fun f => f.id)).Nodup)
    (hfresh : movesOfBatch st0.db b = [])
    (hmoved : movesOfBatch (organizeFiles today st0 destBase false fileIds b).1.db b ≠ []) :
    ∃ st2 res,
      revertBatch hashFn (organizeFiles today st0 destBase false fileIds b).1 b =
        Except.ok (st2, res) ∧
      (∀ p, fsGet st2.fs p = fsGet st0.fs p) ∧
      (∀ op ∈ movesOfBatch (organizeFiles today st0 destBase false fileIds b).1.db b,
        (∃ c, fsGet st2.fs op.source_path = some c ∧ op.hash_used = some (hashFn c)) ∧
        (∃ f0 ∈ st0.db.files, f0.id = op.file_id ∧ op.source_path = srcOf f0 ∧
          ∃ f2 ∈ st2.db.files, f2.id = op.file_id ∧
            f2.current_path = some (srcOf f0) ∧ f2.status = "pending")) ∧
      res.reverted =
        (movesOfBatch (organizeFiles today st0 destBase false fileIds b).1.db b).length ∧
      res.failed = 0 ∧ res.skipped = 0 := by
  obtain ⟨hfsT, htrT, htimeT, hidT⟩ := organize_real_trace hashFn today destBase b st0
    hhne (filesToOrganize st0.db fileIds) st0
    { batchId := b
      destinationBase := destBase
      dryRun := false
      status := "in_progress"
      totalFiles := (filesToOrganize st0.db fileIds).length
      processedFiles := 0
      movedFiles := 0
      skippedFiles := 0
      duplicateFiles := 0
      errorFiles := 0
      operations := [] }
    (filesToOrganize_subset st0.db fileIds) hcoh hps hcross hhfree hhapart hids
    (by rw [hfresh]; rfl)
    (by rw [hfresh]
        exact ⟨List.chain'_nil, List.nodup_nil, List.Pairwise.nil, by simp, by simp⟩)
    (by rw [hfresh]; simp)
    rfl
    (by rw [hfresh]; simp)
    (by rw [hfresh]; simp)
  have hΩ : ((filesToOrganize st0.db fileIds).foldl
      (organizeStep today destBase b false)
      (st0, { batchId := b
              destinationBase := destBase
              dryRun := false
              status := "in_progress"
              totalFiles := (filesToOrganize st0.db fileIds).length
              processedFiles := 0
              movedFiles := 0
              skippedFiles := 0
              duplicateFiles := 0
              errorFiles := 0
              operations := [] })).1 =
      (organizeFiles today st0 destBase false fileIds b).1 := rfl
  rw [hΩ] at hfsT htrT htimeT hidT
  haveI : IsTrans Operation (fun a a2 => a.created_at < a2.created_at) :=
    ⟨fun _ _ _ h1 h2 => Nat.lt_trans h1 h2⟩
  have hpwM := List.chain'_iff_pairwise.mp
    (htrT.1 : List.Chain' (fun a a2 => a.created_at < a2.created_at)
      (movesOfBatch (organizeFiles today st0 destBase false fileIds b).1.db b))
  have hsort : selectBatchMoves (organizeFiles today st0 destBase false fileIds b).1.db b =
      (movesOfBatch (organizeFiles today st0 destBase false fileIds b).1.db b).reverse :=
    insertionSort_desc _ hpwM
  have hlen : ¬ (selectBatchMoves
      (organizeFiles today st0 destBase false fileIds b).1.db b).length = 0 := by
    rw [hsort, List.length_reverse]
    intro h0
    exact hmoved (List.length_eq_zero.mp h0)
  have hrb : revertBatch hashFn (organizeFiles today st0 destBase false fileIds b).1 b =
      Except.ok
        ((selectBatchMoves (organizeFiles today st0 destBase false fileIds b).1.db b).foldl
          (revertBatchStep hashFn)
          ((organizeFiles today st0 destBase false fileIds b).1,
           { batchId := b
             totalOperations := (selectBatchMoves
               (organizeFiles today st0 destBase false fileIds b).1.db b).length
             reverted := 0
             failed := 0
             skipped := 0
             errors := [] })) := by
    rw [revertBatch, if_neg hlen]
  rw [hsort] at hrb
  obtain ⟨hfsR, hframeR, hrecR, hcntR⟩ := revert_undo hashFn b st0
    (movesOfBatch (organizeFiles today st0 destBase false fileIds b).1.db b)
    (organizeFiles today st0 destBase false fileIds b).1
    { batchId := b
      totalOperations := (movesOfBatch
        (organizeFiles today st0 destBase false fileIds b).1.db b).reverse.length
      reverted := 0
      failed := 0
      skipped := 0
      errors := [] }
    htrT (fun p => by rw [hfsT]) hidT
  refine ⟨((movesOfBatch (organizeFiles today st0 destBase false fileIds b).1.db b).reverse.foldl
      (revertBatchStep hashFn)
      ((organizeFiles today st0 destBase false fileIds b).1,
       { batchId := b
         totalOperations := (movesOfBatch
           (organizeFiles today st0 destBase false fileIds b).1.db b).reverse.length
         reverted := 0
         failed := 0
         skipped := 0
         errors := [] })).1,
    ((movesOfBatch (organizeFiles today st0 destBase false fileIds b).1.db b).reverse.foldl
      (revertBatchStep hashFn)
      ((organizeFiles today st0 destBase false fileIds b).1,
       { batchId := b
         totalOperations := (movesOfBatch
           (organizeFiles today st0 destBase false fileIds b).1.db b).reverse.length
         reverted := 0
         failed := 0
         skipped := 0
         errors := [] })).2, ?_, hfsR, ?_, ?_, ?_, ?_⟩
  · rw [hrb]
  · intro op hop
    obtain ⟨hty, hst, hb, ⟨c, hc, hhash, hcne⟩, hdf, f0, hf0mem, hf0id, hf0src⟩ :=
      htrT.2.2.2.2 op hop
    refine ⟨⟨c, (hfsR op.source_path).trans hc, hhash⟩,
      f0, hf0mem, hf0id, hf0src, ?_⟩
    obtain ⟨f2, hf2mem, hf2id, hf2cp, hf2st⟩ := hrecR op hop
    exact ⟨f2, hf2mem, hf2id, by rw [hf2cp, hf0src]; rfl, hf2st⟩
  · rw [hcntR]
    simp
  · rw [hcntR]
  · rw [hcntR]

/-- C1 witness: at the two-colliding-files world — shared proposed
destination already occupied on disk, so both moves land on numeric
disambiguations (1) and (2) — the round-trip theorem applies: the real
organize run produces a nonempty move batch, and the subsequent
revertBatch restores the filesystem pointwise, restores both records'
paths, and re-verifies every recorded fingerprint. -/
theorem organize_revert_roundtrip_witness :
    (movesOfBatch (organizeFiles today0 c1st "/dest" false none "B1").1.db "B1").map
      (fun o => o.destination_path) =
        [some "/dest/2015/07/15/p (1).jpg", some "/dest/2015/07/15/p (2).jpg"] ∧
    (∃ st2 res,
      revertBatch hashFn0 (organizeFiles today0 c1st "/dest" false none "B1").1 "B1" =
        Except.ok (st2, res) ∧
      (∀ p, fsGet st2.fs p = fsGet c1st.fs p) ∧
      (∀ op ∈ movesOfBatch (organizeFiles today0 c1st "/dest" false none "B1").1.db "B1",
        (∃ c, fsGet st2.fs op.source_path = some c ∧ op.hash_used = some (hashFn0 c)) ∧
        (∃ f0 ∈ c1st.db.files, f0.id = op.file_id ∧ op.source_path = srcOf f0 ∧
          ∃ f2 ∈ st2.db.files, f2.id = op.file_id ∧
            f2.current_path = some (srcOf f0) ∧ f2.status = "pending")) ∧
      res.reverted =
        (movesOfBatch
          (organizeFiles today0 c1st "/dest" false none "B1").1.db "B1").length ∧
      res.failed = 0 ∧ res.skipped = 0) :=
  ⟨by decide,
   organize_revert_roundtrip hashFn0 today0 "/dest" "B1" c1st none
     (by intro c h
         have h2 : ("#" ++ c).length = ("" : String).length := congrArg String.length h
         rw [String.length_append] at h2
         have h3 : "#".length = 1 := rfl
         have h4 : ("" : String).length = 0 := rfl
         omega)
     (by intro f hf c hc
         have hsel : filesToOrganize c1st.db none = [c1fA, c1fB] := rfl
         rw [hsel] at hf
         rcases List.mem_cons.mp hf with hfe | hf2
         · subst hfe
           have hval : fsGet c1st.fs (srcOf c1fA) = some "A" := rfl
           rw [hval] at hc
           injection hc with hcc
           subst hcc
           rfl
         · have hfe : f = c1fB := by simpa using hf2
           subst hfe
           have hval : fsGet c1st.fs (srcOf c1fB) = some "B" := rfl
           rw [hval] at hc
           injection hc with hcc
           subst hcc
           rfl)
     (by decide) (by decide) (by decide) (by decide) (by decide) rfl (by decide)⟩

/-- C10 witness: the dry-run ledger theorem at the one-file world makes
the dry batch revertible-looking (nonempty selection). -/
theorem dryRun_ledger_move_completed_witness :
    selectBatchMoves (organizeFile today0 c10st c10os c10file "/dest" "bX" true).1.db
      "bX" ≠ [] := by
  obtain ⟨op, _, _, _, _, _, _, hsel, _⟩ :=
    dryRun_ledger_move_completed hashFn0 today0 c10st c10os c10file "/dest" "bX"
      (by decide) (by decide) (by decide) (by decide) (by decide)
  rw [hsel]
  simp

end FMP
